import Mathlib

/-!
A shallow embedding of the discovery-and-download orchestration core of the
HadesMangaDL repository (files `app/utils.py`, `app/scraping.py`,
`app/worker.py`, `app/api.py`), together with theorems settling the frozen
claims about its natural-language specification.

Modelling conventions:
* Python strings are Lean `String`s; Python's per-code-point string
  comparison is embedded as an executable `charsLe` on `List Char`.
* Python's Unicode-aware `str.isalnum` is embedded as ASCII `Char.isAlphanum`
  and `str.strip` as stripping `Char.isWhitespace`; for the characters these
  functions are applied to in this code base (filenames and chapter labels)
  the embeddings agree with Python on the ASCII range.
* Filesystem and network effects are embedded as explicit state records and
  environment functions; external collaborators (the `gallery-dl` fetcher,
  the FlareSolverr solver, the HTML metadata scraper) are abstracted as
  environment fields, exactly at the boundary the specification declares
  them external.
-/

namespace HadesMangaDL

/-! ## `app/utils.py`: `sanitize_filename` -/

/-- The character predicate of `sanitize_filename` (`app/utils.py` line 20):
`c.isalnum() or c in (' ', '.', '_', '-')`. -/
def allowedChar (c : Char) : Bool :=
  c.isAlphanum || c ∈ [' ', '.', '_', '-']

/-- Python `str.strip()` on a list of characters: drop leading and trailing
whitespace. -/
def stripChars (l : List Char) : List Char :=
  ((l.dropWhile Char.isWhitespace).reverse.dropWhile Char.isWhitespace).reverse

/-- `app/utils.py` lines 16–20:
`"".join(c for c in name if c.isalnum() or c in (' ', '.', '_', '-')).strip()`. -/
def sanitize_filename (name : String) : String :=
  (stripChars (name.data.filter allowedChar)).asString

/-- A Python value that may or may not be a string, for the
`isinstance(name, str)` guard of `sanitize_filename`. -/
inductive PyVal where
  | str (s : String)
  | nonStr
deriving DecidableEq

/-- `app/utils.py` lines 16–17: a non-string input returns `""`, otherwise
the characters are filtered and stripped. -/
def sanitize_filename_val : PyVal → String
  | .nonStr => ""
  | .str s => sanitize_filename s

/-! ## Python string comparison (code-point lexicographic) -/

/-- Python's `<=` on strings, embedded as code-point lexicographic order on
the character lists. -/
def charsLe : List Char → List Char → Bool
  | [], _ => true
  | _ :: _, [] => false
  | a :: as, b :: bs =>
    if a.toNat < b.toNat then true
    else if b.toNat < a.toNat then false
    else charsLe as bs

/-- `charsLe` is total. -/
theorem charsLe_total (x y : List Char) : charsLe x y = true ∨ charsLe y x = true := by
  induction x generalizing y with
  | nil => left; rfl
  | cons a as ih =>
    cases y with
    | nil => right; rfl
    | cons b bs =>
      simp only [charsLe]
      rcases Nat.lt_trichotomy a.toNat b.toNat with h | h | h
      · left; simp [h]
      · have h' : ¬ a.toNat < b.toNat := by omega
        have h'' : ¬ b.toNat < a.toNat := by omega
        rcases ih bs with hle | hle
        · left; simp [h', h'', hle]
        · right; simp [h', h'', hle]
      · right; simp [h]

/-- Unfolding characterization of `charsLe` on two cons cells. -/
theorem charsLe_cons_iff {a b : Char} {as bs : List Char} :
    charsLe (a :: as) (b :: bs) = true ↔
      a.toNat < b.toNat ∨ (a.toNat = b.toNat ∧ charsLe as bs = true) := by
  simp only [charsLe]
  split_ifs with h1 h2
  · simp [h1]
  · simp only [Bool.false_eq_true, false_iff]
    rintro (h | ⟨h, -⟩) <;> omega
  · have heq : a.toNat = b.toNat := by omega
    simp [heq]

/-- `charsLe` is transitive. -/
theorem charsLe_trans : ∀ {x y z : List Char},
    charsLe x y = true → charsLe y z = true → charsLe x z = true
  | [], _, _, _, _ => rfl
  | _ :: _, [], _, h, _ => by simp [charsLe] at h
  | _ :: _, _ :: _, [], _, h => by simp [charsLe] at h
  | a :: as, b :: bs, c :: cs, h₁, h₂ => by
    rw [charsLe_cons_iff] at h₁ h₂ ⊢
    rcases h₁ with h₁ | ⟨h₁, h₁'⟩ <;> rcases h₂ with h₂ | ⟨h₂, h₂'⟩
    · left; omega
    · left; omega
    · left; omega
    · right; exact ⟨by omega, charsLe_trans h₁' h₂'⟩

/-- Python `<=` on strings. -/
def strLe (a b : String) : Bool := charsLe a.data b.data

/-! ## `app/scraping.py`: chapter-label padding
(`extract_chapters_from_json`, lines 102–115) -/

/-- Python `str.split('.')` on a character list: split on every `'.'`,
keeping empty segments; always returns at least one segment. -/
def splitDot : List Char → List (List Char)
  | [] => [[]]
  | c :: rest =>
    if c = '.' then [] :: splitDot rest
    else
      match splitDot rest with
      | [] => [[c]]
      | p :: ps => (c :: p) :: ps

/-- Python `str.zfill(w)`: left-pad with `'0'` to width `w`, keeping a
leading sign character in front of the inserted zeros. -/
def zfillChars (w : Nat) (l : List Char) : List Char :=
  if w ≤ l.length then l
  else
    match l with
    | c :: rest =>
      if c = '+' ∨ c = '-' then c :: (List.replicate (w - l.length) '0' ++ rest)
      else List.replicate (w - l.length) '0' ++ l
    | [] => List.replicate w '0'

/-- `app/scraping.py` lines 103–115: split the chapter ordinal string on
`'.'`; one part → zero-fill to 4; two parts → zero-fill the integer part,
keep the fractional part; more parts → pass through; prefix `"Chapter "`. -/
def padLabel (chapterStr : String) : String :=
  match splitDot chapterStr.data with
  | [p] => "Chapter " ++ (zfillChars 4 p).asString
  | [ip, dp] => "Chapter " ++ (zfillChars 4 ip).asString ++ "." ++ dp.asString
  | _ => "Chapter " ++ chapterStr

/-- `splitDot` never returns the empty list of segments. -/
theorem splitDot_ne_nil (l : List Char) : splitDot l ≠ [] := by
  cases l with
  | nil => simp [splitDot]
  | cons c rest =>
    simp only [splitDot]
    split
    · simp
    · split <;> simp

/-- The number of segments is one more than the number of dots. -/
theorem splitDot_length (l : List Char) :
    (splitDot l).length = l.count '.' + 1 := by
  induction l with
  | nil => simp [splitDot]
  | cons c rest ih =>
    by_cases hc : c = '.'
    · subst hc; simp [splitDot, List.count_cons, ih]
    · have hne := splitDot_ne_nil rest
      cases hsd : splitDot rest with
      | nil => exact absurd hsd hne
      | cons p ps =>
        rw [hsd] at ih
        simp only [List.length_cons] at ih
        simp [splitDot, hc, hsd, List.count_cons]
        omega

/-- A dot-free character list is a single segment. -/
theorem splitDot_no_dot {l : List Char} (h : '.' ∉ l) : splitDot l = [l] := by
  induction l with
  | nil => rfl
  | cons c rest ih =>
    simp only [List.mem_cons, not_or] at h
    have hc : ¬ c = '.' := fun hc => h.1 hc.symm
    simp only [splitDot, if_neg hc, ih h.2]

/-- Splitting at an explicit first dot. -/
theorem splitDot_append {i : List Char} (d : List Char) (hi : '.' ∉ i) :
    splitDot (i ++ '.' :: d) = i :: splitDot d := by
  induction i with
  | nil => simp [splitDot]
  | cons c rest ih =>
    simp only [List.mem_cons, not_or] at hi
    have hc : ¬ c = '.' := fun hc => hi.1 hc.symm
    have h2 := ih hi.2
    have hne := splitDot_ne_nil d
    simp only [List.cons_append, splitDot, if_neg hc, List.append_eq]
    rw [h2]

/-! ## `app/worker.py` `process_series`: chapter dedup, collision
resolution, sorting (lines 205–217) -/

/-- One discovered chapter: `{'url': ..., 'name': ...}`
(`app/scraping.py` line 117). -/
structure Chapter where
  url : String
  name : String
deriving DecidableEq, Repr

/-- One step of building the Python dict
`{chap['url']: chap for chap in all_discovered_chapters}`
(`app/worker.py` line 205): keys keep first-insertion order, the value for
an existing key is replaced by the later chapter. -/
def upsertByUrl (acc : List Chapter) (c : Chapter) : List Chapter :=
  if acc.any (fun x => x.url == c.url) then
    acc.map (fun x => if x.url == c.url then c else x)
  else
    acc ++ [c]

/-- `unique_by_url.values()` (`app/worker.py` line 205). -/
def uniqueByUrl (l : List Chapter) : List Chapter :=
  l.foldl upsertByUrl []

/-- The loop body of `app/worker.py` lines 208–215: `seen` counts how many
times each original name has been seen; a repeated name gets
`" (Part {count+1})"` appended. -/
def resolveAux : List Chapter → (String → Nat) → List Chapter
  | [], _ => []
  | c :: rest, seen =>
    let count := seen c.name
    let c' := if count > 0 then
        { c with name := c.name ++ " (Part " ++ toString (count + 1) ++ ")" }
      else c
    c' :: resolveAux rest (fun n => if n = c.name then count + 1 else seen n)

/-- Label-collision resolution (`app/worker.py` lines 207–215). -/
def resolveCollisions (l : List Chapter) : List Chapter :=
  resolveAux l (fun _ => 0)

/-- Stable insertion of a chapter into a name-sorted list: the new element
goes in front of the first element whose name is `≥` its own.  Folding this
from the right is a stable sort, agreeing with Python's stable
`sorted(..., key=lambda x: x['name'])` (`app/worker.py` line 217). -/
def insertByName (c : Chapter) : List Chapter → List Chapter
  | [] => [c]
  | d :: rest =>
    if strLe c.name d.name then c :: d :: rest else d :: insertByName c rest

/-- `sorted(final_chapters, key=lambda x: x['name'])`
(`app/worker.py` line 217). -/
def sortByName (l : List Chapter) : List Chapter :=
  l.foldr insertByName []

/-- The full post-discovery pipeline of `app/worker.py` lines 205–217:
dedup by url, then collision resolution, then sort by label. -/
def uniquePipeline (l : List Chapter) : List Chapter :=
  sortByName (resolveCollisions (uniqueByUrl l))

/-! ### Pipeline lemmas -/

theorem upsertByUrl_ne_nil (acc : List Chapter) (c : Chapter) :
    upsertByUrl acc c ≠ [] := by
  unfold upsertByUrl
  split
  · cases acc with
    | nil => simp_all
    | cons d rest => simp
  · simp

theorem foldl_upsert_ne_nil (l : List Chapter) (acc : List Chapter)
    (h : acc ≠ []) : l.foldl upsertByUrl acc ≠ [] := by
  induction l generalizing acc with
  | nil => exact h
  | cons c rest ih => exact ih _ (upsertByUrl_ne_nil acc c)

theorem uniqueByUrl_eq_nil_iff (l : List Chapter) :
    uniqueByUrl l = [] ↔ l = [] := by
  constructor
  · intro h
    cases l with
    | nil => rfl
    | cons c rest =>
      exfalso
      have : uniqueByUrl (c :: rest) ≠ [] := by
        unfold uniqueByUrl
        simp only [List.foldl_cons]
        exact foldl_upsert_ne_nil rest _ (upsertByUrl_ne_nil [] c)
      exact this h
  · intro h; subst h; rfl

theorem resolveAux_length (l : List Chapter) (seen : String → Nat) :
    (resolveAux l seen).length = l.length := by
  induction l generalizing seen with
  | nil => rfl
  | cons c rest ih => simp [resolveAux, ih]

theorem insertByName_length (c : Chapter) (l : List Chapter) :
    (insertByName c l).length = l.length + 1 := by
  induction l with
  | nil => rfl
  | cons d rest ih =>
    unfold insertByName
    split <;> simp [ih]

theorem sortByName_length (l : List Chapter) :
    (sortByName l).length = l.length := by
  induction l with
  | nil => rfl
  | cons c rest ih =>
    unfold sortByName at ih ⊢
    simp [List.foldr_cons, insertByName_length, ih]

theorem uniquePipeline_eq_nil_iff (l : List Chapter) :
    uniquePipeline l = [] ↔ l = [] := by
  unfold uniquePipeline
  constructor
  · intro h
    have h1 : (sortByName (resolveCollisions (uniqueByUrl l))).length = 0 := by
      rw [h]; rfl
    rw [sortByName_length, resolveCollisions, resolveAux_length] at h1
    have := (uniqueByUrl_eq_nil_iff l).mp (List.eq_nil_of_length_eq_zero h1)
    exact this
  · intro h; subst h; rfl

/-- The relation the final chapter list is sorted by. -/
def nameLe (a b : Chapter) : Prop := strLe a.name b.name = true

instance : DecidablePred fun p : Chapter × Chapter => nameLe p.1 p.2 := by
  intro p; unfold nameLe; infer_instance

theorem mem_insertByName {x c : Chapter} :
    ∀ {l : List Chapter}, x ∈ insertByName c l → x = c ∨ x ∈ l
  | [], hx => by
    simp [insertByName] at hx
    exact Or.inl hx
  | d :: rest, hx => by
    unfold insertByName at hx
    split at hx
    · rcases List.mem_cons.mp hx with rfl | hx
      · exact Or.inl rfl
      · exact Or.inr hx
    · rcases List.mem_cons.mp hx with rfl | hx
      · exact Or.inr (List.mem_cons_self _ _)
      · rcases mem_insertByName hx with h' | h'
        · exact Or.inl h'
        · exact Or.inr (List.mem_cons_of_mem _ h')

theorem insertByName_sorted (c : Chapter) (l : List Chapter)
    (h : l.Sorted nameLe) : (insertByName c l).Sorted nameLe := by
  induction l with
  | nil => simp [insertByName, List.Sorted]
  | cons d rest ih =>
    by_cases hle : strLe c.name d.name = true
    all_goals simp only [insertByName]
    · rw [if_pos hle]
      refine List.sorted_cons.mpr ⟨?_, h⟩
      intro b hb
      rcases List.mem_cons.mp hb with rfl | hb
      · exact hle
      · have hdb : nameLe d b := (List.sorted_cons.mp h).1 b hb
        exact charsLe_trans hle hdb
    · rw [if_neg hle]
      have hrest := (List.sorted_cons.mp h).2
      have hdc : nameLe d c := by
        rcases charsLe_total c.name.data d.name.data with hcd | hdc
        · exact absurd hcd hle
        · exact hdc
      refine List.sorted_cons.mpr ⟨?_, ih hrest⟩
      intro b hb
      rcases mem_insertByName hb with rfl | hb
      · exact hdc
      · exact (List.sorted_cons.mp h).1 b hb

theorem sortByName_sorted (l : List Chapter) :
    (sortByName l).Sorted nameLe := by
  induction l with
  | nil => simp [sortByName, List.Sorted]
  | cons c rest ih => exact insertByName_sorted c _ ih

theorem uniquePipeline_sorted (l : List Chapter) :
    (uniquePipeline l).Sorted nameLe :=
  sortByName_sorted _

/-! ## `app/worker.py` `process_series` (lines 155–292): discovery,
metadata frame, missing-chapter delta -/

/-- `os.path.splitext(f)[0]` for a plain file name: strip the extension at
the last dot, unless every character before that dot is itself a dot. -/
def splitextRoot (f : String) : String :=
  let cs := f.data
  if '.' ∈ cs then
    let stem := ((cs.reverse.dropWhile (fun c => c ≠ '.')).drop 1).reverse
    if stem.any (fun c => c ≠ '.') then stem.asString else f
  else f

/-- `app/worker.py` lines 272–274:
`{os.path.splitext(f)[0] for f in os.listdir(series_path) if f.endswith('.cbz')}`. -/
def downloadedCbzNames (dirFiles : List String) : List String :=
  (dirFiles.filter (fun f => ".cbz".data.isSuffixOf f.data)).map splitextRoot

/-- The `series.json` metadata document (`filtered_metadata["metadata"]`,
`app/worker.py` lines 253–267).  Its synthesis from the first chapter's
metadata seed and the scraped page metadata involves the external fetch and
scrape collaborators, so the synthesized value enters the model as a
parameter of `process_series`. -/
structure SeriesMeta where
  publisher : String
  name : String
  year : Int
  description_text : String
  description_formatted : String
  comic_image : String
  total_issues : Nat
  seriesStatus : String
deriving DecidableEq, Repr

/-- The per-series persistent state touched by `process_series`:
the `series.json` document, the Redis-cached chapter-name list
(`chapters:{series_folder_name}`), and the series directory listing. -/
structure PSState where
  seriesJson : Option SeriesMeta
  chaptersCache : Option (List String)
  dirFiles : List String
deriving DecidableEq, Repr

/-- The outcome of one iteration of the discovery loop
(`app/worker.py` lines 172–203) for one source URL.  The loop body is a
`try`/`finally` with **no** `except` clause, so it has three distinct
exits:
* `chapters cs` — the (optional) FlareSolverr session was created, the
  `gallery-dl --dump-json` run exited with code 0, and
  `extract_chapters_from_json` produced `cs`;
* `fetchFail` — the `gallery-dl` run exited non-zero (line 187): the
  failure is printed and the loop `continue`s to the next source;
* `sessionRaise` — `_create_flaresolverr_session` (line 178) raised an
  uncaught exception (e.g. FlareSolverr unreachable or a non-ok solver
  status, `app/scraping.py` lines 23–27): nothing catches it, so it
  propagates out of `process_series` and aborts the whole call. -/
inductive SourceOutcome where
  | chapters (cs : List Chapter)
  | fetchFail
  | sessionRaise
deriving DecidableEq, Repr

/-- The two non-raising outcomes of a source, as the simple per-source
capability used by the restricted model `process_series`. -/
def sourceToOption : SourceOutcome → Option (List Chapter)
  | .chapters cs => some cs
  | .fetchFail => none
  | .sessionRaise => none

/-- The full environment of one `process_series` call: the site-selector
table (`none` models `FileNotFoundError`/`JSONDecodeError` on
`sites_config.json`, lines 166–170) and the per-source outcome of the
discovery loop body. -/
structure DiscoveryEnv where
  sitesConfig : Option (List String)
  fetchSource : String → SourceOutcome

/-- The environment of the restricted model `process_series`, covering the
executions in which no source raises the uncaught session exception
(anti-bot disabled, or every session creation succeeds): the site-selector
table, and the per-source discovery capability (`gallery-dl --dump-json`
plus `extract_chapters_from_json`; `none` models a non-zero `gallery-dl`
exit, lines 186–189).  `process_series_full` over `DiscoveryEnv` is the
complete model; the two agree on non-raising environments
(`process_series_full_noraise`). -/
structure PSEnv where
  sitesConfig : Option (List String)
  fetchChapters : String → Option (List Chapter)

/-- Return statuses of `process_series`. -/
inductive PSStatus where
  | statusFailed (err : String)
  | statusSuccess (msg : String)
  | statusRunning (queuedCount : Nat)
deriving DecidableEq, Repr

/-- The observable outcome of one `process_series` call: the returned
status, the resulting per-series state, and the chapters submitted as
download tasks. -/
structure PSOutcome where
  psStatus : PSStatus
  state : PSState
  queuedTasks : List Chapter
deriving DecidableEq, Repr

/-- The full discovery loop of `app/worker.py` lines 172–203: sources are
tried in order; a non-zero `gallery-dl` exit is logged and skipped
(`continue`); an uncaught `_create_flaresolverr_session` exception aborts
the loop (and with it the whole call) — chapters accumulated from earlier
sources are lost. -/
def discoverStep (fetch : String → SourceOutcome)
    (acc : Except String (List Chapter)) (u : String) :
    Except String (List Chapter) :=
  match acc with
  | .error e => .error e
  | .ok cs =>
    match fetch u with
    | .sessionRaise =>
      .error "unhandled exception from _create_flaresolverr_session"
    | .fetchFail => .ok cs
    | .chapters new => .ok (cs ++ new)

def discoverLoop (fetch : String → SourceOutcome) (urls : List String) :
    Except String (List Chapter) :=
  urls.foldl (discoverStep fetch) (.ok [])

/-- The discovery loop restricted to its two non-raising per-source
outcomes (chapters found, or a non-zero `gallery-dl` exit that is logged
and skipped); `discoverLoop` is the complete loop, and the two agree on
non-raising environments (`discoverLoop_ok_of_noraise`). -/
def discoverChapters (fetch : String → Option (List Chapter))
    (urls : List String) : List Chapter :=
  urls.foldl (fun acc u => match fetch u with
    | none => acc
    | some cs => acc ++ cs) []

/-- The `series.json` creation guard of `app/worker.py` line 228:
`if not os.path.exists(series_json_path)` — the document is written only
when absent. -/
def writeMetaIfAbsent (st : PSState) (synth : SeriesMeta) : PSState :=
  if st.seriesJson.isSome then st else { st with seriesJson := some synth }

/-- The missing-chapter delta of `app/worker.py` lines 278–281:
`[chap for chap in unique_chapters
  if sanitize_filename(chap['name']) not in downloaded_cbz_names]`. -/
def newChapters (unique_chapters : List Chapter) (dirFiles : List String) :
    List Chapter :=
  unique_chapters.filter
    (fun c => !((downloadedCbzNames dirFiles).contains (sanitize_filename c.name)))

/-- The post-discovery tail of `process_series` (`app/worker.py` lines
205–292), run on the accumulated `all_discovered_chapters`: dedup,
collision resolution, sort; fail when empty; cache the chapter names;
write `series.json` if absent; compute and queue the missing-chapter
delta. -/
def processDiscovered (st : PSState) (synth : SeriesMeta)
    (all_discovered : List Chapter) : PSOutcome :=
  let unique_chapters := uniquePipeline all_discovered
  if unique_chapters.isEmpty then
    { psStatus := .statusFailed "No chapters found from any of the series pages.",
      state := st, queuedTasks := [] }
  else
    let st2 := writeMetaIfAbsent
      { st with chaptersCache := some (unique_chapters.map (fun c => c.name)) } synth
    let new_chapters := newChapters unique_chapters st2.dirFiles
    if new_chapters.isEmpty then
      { psStatus := .statusSuccess "No new chapters found.",
        state := st2, queuedTasks := [] }
    else
      { psStatus := .statusRunning new_chapters.length,
        state := st2, queuedTasks := new_chapters }

/-- `app/worker.py` `process_series`, lines 155–292, restricted to
executions in which no source raises the uncaught session exception (see
`PSEnv`); `process_series_full` is the complete model.  `synth` is the
`series.json` document that would be synthesized for this series (see
`SeriesMeta`). -/
def process_series (env : PSEnv) (st : PSState) (synth : SeriesMeta)
    (series_urls : List String) : PSOutcome :=
  match env.sitesConfig with
  | none =>
    { psStatus := .statusFailed "Could not load sites_config.json",
      state := st, queuedTasks := [] }
  | some _ =>
    processDiscovered st synth (discoverChapters env.fetchChapters series_urls)

/-- How a `process_series` call ends: with a returned outcome, or by
dying on an uncaught exception (the task raises; nothing after the
discovery loop runs, so the per-series state is whatever it was at the
raise). -/
inductive PSResult where
  | returned (outcome : PSOutcome)
  | raised (st : PSState)
deriving DecidableEq, Repr

/-- `app/worker.py` `process_series`, lines 155–292, complete model: the
discovery loop may abort the whole call with an uncaught
`_create_flaresolverr_session` exception (`discoverLoop`); otherwise the
post-discovery tail runs as in `processDiscovered`. -/
def process_series_full (env : DiscoveryEnv) (st : PSState)
    (synth : SeriesMeta) (series_urls : List String) : PSResult :=
  match env.sitesConfig with
  | none =>
    .returned { psStatus := .statusFailed "Could not load sites_config.json",
                state := st, queuedTasks := [] }
  | some _ =>
    match discoverLoop env.fetchSource series_urls with
    | .error _ => .raised st
    | .ok all_discovered => .returned (processDiscovered st synth all_discovered)

/-- `app/worker.py` `refresh_series_metadata`, lines 330–343: delete the
`series.json` document and the cached chapter-name list, then re-trigger
`process_series`. -/
def refresh_series_metadata (env : PSEnv) (st : PSState) (synth : SeriesMeta)
    (series_urls : List String) : PSOutcome :=
  let deleted := { st with seriesJson := none, chaptersCache := none }
  process_series env deleted synth series_urls

/-! ## `app/worker.py` `download_single_url` (lines 81–152) -/

/-- The per-attempt environment of one `download_single_url` run: the exit
code of the direct `gallery-dl` run, whether the chapter directory is
non-empty after it, whether a FlareSolverr session could be created, the
exit code of the FlareSolverr-assisted run, and whether the directory is
non-empty after that run. -/
structure DlEnv where
  directExit : Nat
  directFiles : Bool
  fsArgsOk : Bool
  fsExit : Nat
  fsFiles : Bool
deriving DecidableEq, Repr

/-- Result states of one `download_single_url` invocation. -/
inductive DlStatus where
  | completed
  | retrying
  | failed
deriving DecidableEq, Repr

/-- The observable outcome of one `download_single_url` invocation: the
result state, whether the `.cbz` archive was created, whether the webhook
notification was attempted, and whether the working directory was removed
(the `finally` block, lines 142–146, runs on every exit path). -/
structure DlOutcome where
  dlStatus : DlStatus
  cbzCreated : Bool
  webhookAttempted : Bool
  workdirRemoved : Bool
deriving DecidableEq, Repr

/-- `app/worker.py` `download_single_url`, lines 81–152, one attempt.
`retrying` models `self.retry(exc=exc)` being reached from the `except`
block: the raised exception re-enqueues the task. -/
def download_single_url (env : DlEnv) (use_flaresolverr : Bool) : DlOutcome :=
  let download_succeeded := env.directExit == 0 && env.directFiles
  if download_succeeded then
    -- direct fetch succeeded with a non-empty directory; the line-120
    -- emptiness re-check sees the same directory contents
    { dlStatus := .completed, cbzCreated := true,
      webhookAttempted := true, workdirRemoved := true }
  else if use_flaresolverr then
    if !env.fsArgsOk then
      -- "Could not get FlareSolverr session arguments" is raised (line 107)
      { dlStatus := .retrying, cbzCreated := false,
        webhookAttempted := false, workdirRemoved := true }
    else if env.fsExit != 0 then
      -- "gallery-dl with FlareSolverr also failed" is raised (line 113)
      { dlStatus := .retrying, cbzCreated := false,
        webhookAttempted := false, workdirRemoved := true }
    else if !env.fsFiles then
      -- nominally successful fetch, empty directory: terminal Failed (line 123)
      { dlStatus := .failed, cbzCreated := false,
        webhookAttempted := false, workdirRemoved := true }
    else
      { dlStatus := .completed, cbzCreated := true,
        webhookAttempted := true, workdirRemoved := true }
  else
    -- "Direct download failed and FlareSolverr is disabled" is raised (line 118)
    { dlStatus := .retrying, cbzCreated := false,
      webhookAttempted := false, workdirRemoved := true }

/-- Whether some fetch path nominally succeeded (exit code zero on the path
that was actually taken). -/
def nominalFetchSuccess (env : DlEnv) (use_flaresolverr : Bool) : Bool :=
  (env.directExit == 0 && env.directFiles) ||
    (use_flaresolverr && env.fsArgsOk && env.fsExit == 0)

/-- Whether the chapter working directory is empty after the last fetch
that ran. -/
def finalDirEmpty (env : DlEnv) (_use_flaresolverr : Bool) : Bool :=
  if env.directExit == 0 && env.directFiles then !env.directFiles else !env.fsFiles

/-- Final fate of a task under the Celery queue. -/
inductive QueueFinal where
  | done (s : DlStatus)
  | exhausted
deriving DecidableEq, Repr

/-- The task queue's retry loop (`@celery_app.task(bind=True, max_retries=3,
...)`, line 81): a `retrying` attempt is re-invoked while retries remain;
when they are exhausted the task fails terminally.  Returns the final fate
and the total number of invocations made, starting from attempt `i`. -/
def queueRun (attempt : Nat → DlStatus) (i : Nat) :
    Nat → QueueFinal × Nat
  | 0 =>
    if attempt i = .retrying then (.exhausted, i + 1)
    else (.done (attempt i), i + 1)
  | retriesLeft + 1 =>
    if attempt i = .retrying then queueRun attempt (i + 1) retriesLeft
    else (.done (attempt i), i + 1)

/-! ## Watch Registry (`app/api.py`, `app/worker.py` `bulk_add_task`) -/

/-- One watch-registry entry, the JSON document stored as a member of the
Redis set `gallery_dl_watched_urls`. -/
structure WatchEntry where
  series_folder_name : String
  series_urls : List String
  library : String
  use_flaresolverr : Bool
  frequency : String
deriving DecidableEq, Repr

/-- The registry: the Redis set of watch entries.  Redis guarantees
distinct members; list order is irrelevant to set semantics. -/
abbrev Registry := List WatchEntry

/-- The linear scan
`next(e for e in entries if e.get("series_folder_name") == name)`
used by every registry operation. -/
def findEntry (reg : Registry) (folder : String) : Option WatchEntry :=
  reg.find? (fun e => e.series_folder_name == folder)

/-- Stable insertion for Python's `list.sort()` on strings. -/
def insertStr (s : String) : List String → List String
  | [] => [s]
  | t :: rest => if strLe s t then s :: t :: rest else t :: insertStr s rest

/-- Python's stable `list.sort()` / `sorted` on a list of strings. -/
def sortStrings (l : List String) : List String :=
  l.foldr insertStr []

/-- `app/api.py` `remove_source_from_series`, lines 276–310: find the entry,
require the URL to be present, `srem` the old entry, `list.remove` the URL,
and `sadd` the updated entry back only if URLs remain. -/
def remove_source_from_series (reg : Registry) (folder url : String) :
    Except String Registry :=
  match findEntry reg folder with
  | none => .error "Series not found in watched list."
  | some e =>
    if url ∈ e.series_urls then
      let reg1 := reg.erase e
      let e' := { e with series_urls := e.series_urls.erase url }
      if e'.series_urls.isEmpty then .ok reg1
      else .ok (reg1 ++ [e'])
    else .error "Source URL not found in this series."

/-- `app/api.py` `add_source_to_series`, lines 160–179: find the entry,
`srem` it, append the URL only if absent and re-sort, `sadd` it back. -/
def add_source_to_series (reg : Registry) (folder url : String) :
    Except String Registry :=
  match findEntry reg folder with
  | none => .error "Series not found."
  | some e =>
    let e' := if url ∈ e.series_urls then e
              else { e with series_urls := sortStrings (e.series_urls ++ [url]) }
    .ok (reg.erase e ++ [e'])

/-- One loop iteration of `app/worker.py` `bulk_add_task`, lines 406–448,
after a title has been scraped for `url`: look up the sanitized title among
the existing folder names; on a match merge the URL into that entry
(append-if-absent, sort); otherwise create a fresh entry. -/
def bulkAddStep (reg : Registry) (url title library frequency : String) :
    Registry :=
  let sanitized_title := sanitize_filename title
  match findEntry reg sanitized_title with
  | some e =>
    if url ∈ e.series_urls then reg
    else reg.erase e ++
      [{ e with series_urls := sortStrings (e.series_urls ++ [url]) }]
  | none =>
    reg ++ [{ series_folder_name := sanitized_title,
              series_urls := sortStrings [url],
              library := library,
              use_flaresolverr := true,
              frequency := frequency }]

/-- `LIBRARIES` from `app/services.py`. -/
def LIBRARIES (lib : String) : Option String :=
  if lib = "comics" then some "/downloads/comics"
  else if lib = "artbooks" then some "/downloads/artbooks"
  else if lib = "manga" then some "/downloads/manga"
  else none

/-- Python `sorted(list(set(l)))` on strings, split into its two steps:
keep the distinct values (order immaterial, the sort follows). -/
def dedupStrings (l : List String) : List String :=
  l.foldl (fun acc s => if s ∈ acc then acc else acc ++ [s]) []

/-- The entry lookup of `app/api.py` `create_download_job`, lines 88–104:
first by the explicit `series_folder_name`, then — if not found and a
title is available — by the sanitized title. -/
def lookupEntry (reg : Registry) (series_folder_name title : Option String) :
    Option WatchEntry :=
  let byName := match series_folder_name with
    | some f => findEntry reg f
    | none => none
  match byName with
  | some e => some e
  | none =>
    match title with
    | some t => findEntry reg (sanitize_filename t)
    | none => none

/-- `app/api.py` `create_download_job`, lines 73–158, registry effect
only: validate the library; look the series up by folder name then by
sanitized title; on a match `srem` the old entry, update its frequency if
a different non-empty one was sent, merge the URL sets
(`sorted(list(set(old + source_urls)))`) and `sadd` it back; otherwise
insert a fresh entry named from the sanitized title, or — when no title
is available — from the first URL's last path segment plus a random
suffix (`fallback_name`; the scrape that may fill `title` and the
`uuid4` suffix are external collaborators), which raises `IndexError`
when `source_urls` is empty.  Task submission and
`record_check_timestamp` are side effects outside the registry state. -/
def create_download_job (reg : Registry) (source_urls : List String)
    (library : String) (series_folder_name title : Option String)
    (use_flaresolverr : Bool) (frequency : String) (fallback_name : String) :
    Except String Registry :=
  if (LIBRARIES library).isNone then .error "Invalid library selected."
  else
    match lookupEntry reg series_folder_name title with
    | some e =>
      let e1 := if frequency ≠ "" ∧ e.frequency ≠ frequency
                then { e with frequency := frequency } else e
      .ok (reg.erase e ++
        [{ e1 with series_urls :=
            sortStrings (dedupStrings (e.series_urls ++ source_urls)) }])
    | none =>
      match title with
      | some t =>
        .ok (reg ++ [{ series_folder_name := sanitize_filename t,
                       series_urls := sortStrings source_urls,
                       library := library,
                       use_flaresolverr := use_flaresolverr,
                       frequency := frequency }])
      | none =>
        match source_urls with
        | [] => .error "IndexError: source_urls is empty"
        | _ :: _ =>
          .ok (reg ++ [{ series_folder_name := fallback_name,
                         series_urls := sortStrings source_urls,
                         library := library,
                         use_flaresolverr := use_flaresolverr,
                         frequency := frequency }])

/-! ## `app/worker.py` `check_for_updates_by_frequency` (lines 346–379) -/

/-- A registry entry as the scheduler reads it back from Redis: each field
is optional, mirroring `dict.get` on the parsed JSON object. -/
structure JsonEntry where
  frequency : Option String
  library : Option String
  series_urls : Option (List String)
  series_folder_name : Option String
  use_flaresolverr : Option Bool
deriving DecidableEq, Repr

/-- A raw member of the watched-URLs Redis set: either it parses as a JSON
object or `json.loads` raises (`malformed`). -/
inductive RegEntryRaw where
  | parsed (e : JsonEntry)
  | malformed
deriving DecidableEq, Repr

/-- One `process_series.s(...)` signature built by the scheduler
(lines 365–370). -/
structure DiscoveryCall where
  series_folder_name : String
  series_urls : List String
  destination_path : String
  use_flaresolverr : Bool
deriving DecidableEq, Repr

/-- Per-entry outcome inside the scheduler's loop. -/
inductive TickOutcome where
  | submit (c : DiscoveryCall)
  | skipSilent
  | skipWarn
deriving DecidableEq, Repr

/-- Python truthiness of the values tested by
`all([entry.get("series_urls"), destination_path, entry.get("series_folder_name")])`
(line 364). -/
def truthyUrls : Option (List String) → Bool
  | none => false
  | some l => !l.isEmpty

def truthyStr : Option String → Bool
  | none => false
  | some s => !(s == "")

/-- The loop body of `check_for_updates_by_frequency`, lines 359–373:
a `json.loads` failure or a `KeyError` (the `entry["library"]` access on
line 363) is caught and logged as a skipped malformed entry; an entry whose
frequency (default `"daily"`) does not match, or which fails the
truthiness guard, contributes nothing. -/
def schedulerEntryOutcome (freq : String) : RegEntryRaw → TickOutcome
  | .malformed => .skipWarn
  | .parsed e =>
    if e.frequency.getD "daily" = freq then
      match e.library with
      | none => .skipWarn
      | some lib =>
        match LIBRARIES lib with
        | none => .skipSilent
        | some dest =>
          if truthyUrls e.series_urls && truthyStr e.series_folder_name then
            .submit { series_folder_name := (e.series_folder_name.getD ""),
                      series_urls := (e.series_urls.getD []),
                      destination_path := dest,
                      use_flaresolverr := e.use_flaresolverr.getD true }
          else .skipSilent
    else .skipSilent

/-- The discovery invocations fanned out by one scheduler tick. -/
def submittedCalls (freq : String) (entries : List RegEntryRaw) :
    List DiscoveryCall :=
  entries.filterMap (fun r => match schedulerEntryOutcome freq r with
    | .submit c => some c
    | _ => none)

/-- Externally visible events of one scheduler tick, in order. -/
inductive TickEvent where
  | recordLastRun (frequency : String)
  | warnSkip
  | submitBatch (calls : List DiscoveryCall)
deriving DecidableEq, Repr

/-- `app/worker.py` `check_for_updates_by_frequency`, lines 346–379, as its
ordered trace of externally visible events: the `last_run:{frequency}`
timestamp is written first (line 351), each malformed entry logs a warning,
and the collected tasks are submitted as one `group(...)` batch at the end
(lines 375–377) when non-empty. -/
def check_for_updates_by_frequency (freq : String)
    (entries : List RegEntryRaw) : List TickEvent :=
  TickEvent.recordLastRun freq ::
    (entries.filterMap (fun r => match schedulerEntryOutcome freq r with
      | .skipWarn => some TickEvent.warnSkip
      | _ => none) ++
     (let calls := submittedCalls freq entries
      if calls.isEmpty then [] else [TickEvent.submitBatch calls]))

/-! ## Helper lemmas -/

theorem stripChars_sublist (l : List Char) :
    List.Sublist (stripChars l) l := by
  unfold stripChars
  have h1 : List.Sublist (l.dropWhile Char.isWhitespace) l :=
    List.dropWhile_sublist _
  have h2 : List.Sublist
      ((l.dropWhile Char.isWhitespace).reverse.dropWhile Char.isWhitespace)
      (l.dropWhile Char.isWhitespace).reverse :=
    List.dropWhile_sublist _
  have h3 := h2.reverse
  rw [List.reverse_reverse] at h3
  exact h3.trans h1

theorem sanitize_filename_data (s : String) :
    (sanitize_filename s).data = stripChars (s.data.filter allowedChar) := rfl

theorem mem_sanitize_allowed {s : String} {c : Char}
    (h : c ∈ (sanitize_filename s).data) : allowedChar c = true := by
  rw [sanitize_filename_data] at h
  have hsub := (stripChars_sublist (s.data.filter allowedChar)).mem h
  exact List.of_mem_filter hsub

theorem sanitize_sublist (s : String) :
    List.Sublist (sanitize_filename s).data s.data := by
  rw [sanitize_filename_data]
  exact (stripChars_sublist _).trans (List.filter_sublist _)

/-! ## Claim theorems -/

/-- **C10.** `sanitize_filename` is total and filesystem-safe: a non-string
input yields `""`; a string input yields exactly its characters that are
alphanumeric or in `{' ', '.', '_', '-'}`, in original order (a sublist of
the input), with leading and trailing whitespace stripped; every output
character satisfies the allowed-character predicate, and in particular no
path separator (`'/'` or `'\\'`) ever occurs in the output. -/
theorem c10_sanitize_total_and_safe :
    (sanitize_filename_val .nonStr = "") ∧
    (∀ s : String, (sanitize_filename_val (.str s)).data
        = stripChars (s.data.filter allowedChar)) ∧
    (∀ s : String, ∀ c ∈ (sanitize_filename s).data, allowedChar c = true) ∧
    (∀ s : String, List.Sublist (sanitize_filename s).data s.data) ∧
    (∀ s : String, '/' ∉ (sanitize_filename s).data ∧
        '\\' ∉ (sanitize_filename s).data) := by
  refine ⟨rfl, fun s => rfl, fun s c hc => mem_sanitize_allowed hc,
    sanitize_sublist, fun s => ⟨fun h => ?_, fun h => ?_⟩⟩
  · have := mem_sanitize_allowed h
    simp [allowedChar, Char.isAlphanum, Char.isAlpha, Char.isUpper,
      Char.isLower, Char.isDigit] at this
  · have := mem_sanitize_allowed h
    simp [allowedChar, Char.isAlphanum, Char.isAlpha, Char.isUpper,
      Char.isLower, Char.isDigit] at this

/-- **C4.** The chapter-label formatting of the extractor is stable and
deterministic: a dot-free ordinal is zero-filled to 4 digits; an ordinal
with exactly one dot has its integer part zero-filled and the fractional
part preserved unpadded; an ordinal with two or more dots passes through
unmodified; all prefixed with `"Chapter "`.  Instances:
`pad "15" = "Chapter 0015"`, `pad "7" = "Chapter 0007"`,
`pad "15.1" = "Chapter 0015.1"`. -/
theorem c4_pad_label_formatting (s i d : String)
    (hi : '.' ∉ i.data) (hd : '.' ∉ d.data) :
    (padLabel i = "Chapter " ++ (zfillChars 4 i.data).asString) ∧
    (padLabel (i ++ "." ++ d)
        = "Chapter " ++ (zfillChars 4 i.data).asString ++ "." ++ d) ∧
    (2 ≤ s.data.count '.' → padLabel s = "Chapter " ++ s) ∧
    (padLabel "15" = "Chapter 0015" ∧ padLabel "7" = "Chapter 0007" ∧
      padLabel "15.1" = "Chapter 0015.1") := by
  refine ⟨?_, ?_, ?_, by decide, by decide, by decide⟩
  · unfold padLabel
    rw [splitDot_no_dot hi]
  · unfold padLabel
    have hdot : ("." : String).data = ['.'] := rfl
    have hdata : (i ++ "." ++ d).data = i.data ++ '.' :: d.data := by
      rw [String.data_append, String.data_append, hdot, List.append_assoc]
      rfl
    rw [hdata, splitDot_append _ hi, splitDot_no_dot hd]
    show "Chapter " ++ (zfillChars 4 i.data).asString ++ "." ++ d.data.asString
        = "Chapter " ++ (zfillChars 4 i.data).asString ++ "." ++ d
    rfl
  · intro h2
    have hlen := splitDot_length s.data
    rcases hsd : splitDot s.data with _ | ⟨a, _ | ⟨b, _ | ⟨c3, t⟩⟩⟩
    · exact absurd hsd (splitDot_ne_nil s.data)
    · rw [hsd] at hlen; simp at hlen; omega
    · rw [hsd] at hlen; simp at hlen; omega
    · unfold padLabel
      rw [hsd]

/-- Witness for **C4** at the concrete inputs
`s = "1.2.3"`, `i = "15"`, `d = "1"`. -/
theorem c4_pad_label_formatting_witness :
    (padLabel "15" = "Chapter " ++ (zfillChars 4 "15".data).asString) ∧
    (padLabel ("15" ++ "." ++ "1")
        = "Chapter " ++ (zfillChars 4 "15".data).asString ++ "." ++ "1") ∧
    (2 ≤ ("1.2.3" : String).data.count '.' →
        padLabel "1.2.3" = "Chapter " ++ "1.2.3") ∧
    (padLabel "15" = "Chapter 0015" ∧ padLabel "7" = "Chapter 0007" ∧
      padLabel "15.1" = "Chapter 0015.1") :=
  c4_pad_label_formatting "1.2.3" "15" "1" (by decide) (by decide)

/-- **C3.** Chapters are deduplicated by url before label-collision
resolution; two distinct URLs producing the same label yield that label and
the label with `" (Part 2)"` appended, in first-seen order; the final list
is sorted by label; and the scenario of ordinals `15`, `15.1`, `2` from
three URLs produces `["Chapter 0002", "Chapter 0015", "Chapter 0015.1"]`. -/
theorem c3_dedup_collision_sort (c1 c2 : Chapter)
    (hurl : c1.url ≠ c2.url) (hname : c1.name = c2.name) :
    (uniqueByUrl [c1, c2] = [c1, c2]) ∧
    (resolveCollisions (uniqueByUrl [c1, c2])
        = [c1, { c2 with name := c2.name ++ " (Part 2)" }]) ∧
    (∀ l, uniquePipeline l = sortByName (resolveCollisions (uniqueByUrl l))) ∧
    (∀ l, (uniquePipeline l).Sorted nameLe) ∧
    ((uniquePipeline [⟨"u1", padLabel "15"⟩, ⟨"u2", padLabel "15.1"⟩,
        ⟨"u3", padLabel "2"⟩]).map (fun c => c.name)
      = ["Chapter 0002", "Chapter 0015", "Chapter 0015.1"]) := by
  have hbeq : (c1.url == c2.url) = false := by
    simp [hurl]
  have huniq : uniqueByUrl [c1, c2] = [c1, c2] := by
    unfold uniqueByUrl upsertByUrl
    simp [hbeq, hurl]
  have hstr : ∀ n : String, n ++ " (Part " ++ toString 2 ++ ")" = n ++ " (Part 2)" := by
    intro n
    apply String.ext
    simp only [String.data_append]
    have h2 : (toString 2 : String).data = ['2'] := rfl
    rw [h2]
    simp
  refine ⟨huniq, ?_, fun l => rfl, uniquePipeline_sorted, by decide⟩
  rw [huniq]
  unfold resolveCollisions resolveAux resolveAux resolveAux
  simp [← hname, hstr]

/-- Witness for **C3** at `c1 = ⟨"u1", "Chapter 0001"⟩`,
`c2 = ⟨"u2", "Chapter 0001"⟩`. -/
theorem c3_dedup_collision_sort_witness :
    (uniqueByUrl [⟨"u1", "Chapter 0001"⟩, ⟨"u2", "Chapter 0001"⟩]
        = [⟨"u1", "Chapter 0001"⟩, ⟨"u2", "Chapter 0001"⟩]) ∧
    (resolveCollisions (uniqueByUrl
        [⟨"u1", "Chapter 0001"⟩, ⟨"u2", "Chapter 0001"⟩])
      = [⟨"u1", "Chapter 0001"⟩, ⟨"u2", "Chapter 0001 (Part 2)"⟩]) ∧
    ((uniquePipeline [⟨"u1", padLabel "15"⟩, ⟨"u2", padLabel "15.1"⟩,
        ⟨"u3", padLabel "2"⟩]).map (fun c => c.name)
      = ["Chapter 0002", "Chapter 0015", "Chapter 0015.1"]) :=
  ⟨(c3_dedup_collision_sort ⟨"u1", "Chapter 0001"⟩ ⟨"u2", "Chapter 0001"⟩
      (by decide) rfl).1,
   (c3_dedup_collision_sort ⟨"u1", "Chapter 0001"⟩ ⟨"u2", "Chapter 0001"⟩
      (by decide) rfl).2.1,
   (c3_dedup_collision_sort ⟨"u1", "Chapter 0001"⟩ ⟨"u2", "Chapter 0001"⟩
      (by decide) rfl).2.2.2.2⟩

/-! ### `process_series` helper lemmas -/

theorem writeMetaIfAbsent_dirFiles (st : PSState) (synth : SeriesMeta) :
    (writeMetaIfAbsent st synth).dirFiles = st.dirFiles := by
  unfold writeMetaIfAbsent
  split <;> rfl

theorem writeMetaIfAbsent_of_some {st : PSState} {m : SeriesMeta}
    (h : st.seriesJson = some m) (synth : SeriesMeta) :
    writeMetaIfAbsent st synth = st := by
  unfold writeMetaIfAbsent
  rw [h]
  rfl

theorem writeMetaIfAbsent_of_none {st : PSState}
    (h : st.seriesJson = none) (synth : SeriesMeta) :
    writeMetaIfAbsent st synth = { st with seriesJson := some synth } := by
  unfold writeMetaIfAbsent
  rw [h]
  rfl

theorem writeMetaIfAbsent_seriesJson_of_some {st : PSState} {m : SeriesMeta}
    (synth : SeriesMeta) (h : st.seriesJson = some m) :
    (writeMetaIfAbsent st synth).seriesJson = some m := by
  rw [writeMetaIfAbsent_of_some h synth]
  exact h

theorem mem_newChapters (u : List Chapter) (d : List String) (c : Chapter) :
    c ∈ newChapters u d ↔
      c ∈ u ∧ sanitize_filename c.name ∉ downloadedCbzNames d := by
  unfold newChapters
  rw [List.mem_filter]
  constructor
  · rintro ⟨hm, hp⟩
    refine ⟨hm, fun hmem => ?_⟩
    rw [Bool.not_eq_true', ← Bool.not_eq_true] at hp
    exact hp (List.elem_iff.mpr hmem)
  · rintro ⟨hm, hp⟩
    refine ⟨hm, ?_⟩
    rw [Bool.not_eq_true', ← Bool.not_eq_true]
    intro hc
    exact hp (List.elem_iff.mp hc)

theorem newChapters_congr (u : List Chapter) {d1 d2 : List String}
    (h : ∀ a, a ∈ downloadedCbzNames d1 ↔ a ∈ downloadedCbzNames d2) :
    newChapters u d1 = newChapters u d2 := by
  unfold newChapters
  apply List.filter_congr
  intro c _
  have hiff : ((downloadedCbzNames d1).contains (sanitize_filename c.name) = true) ↔
      ((downloadedCbzNames d2).contains (sanitize_filename c.name) = true) := by
    rw [List.contains, List.contains, List.elem_iff, List.elem_iff]
    exact h _
  have : (downloadedCbzNames d1).contains (sanitize_filename c.name)
      = (downloadedCbzNames d2).contains (sanitize_filename c.name) :=
    Bool.eq_iff_iff.mpr hiff
  rw [this]

theorem processDiscovered_dirFiles (st : PSState) (synth : SeriesMeta)
    (all : List Chapter) :
    (processDiscovered st synth all).state.dirFiles = st.dirFiles := by
  unfold processDiscovered
  dsimp only
  split
  · rfl
  · split <;> simp [writeMetaIfAbsent_dirFiles]

theorem processDiscovered_queued (st : PSState) (synth : SeriesMeta)
    (all : List Chapter) :
    (processDiscovered st synth all).queuedTasks =
      newChapters (uniquePipeline all) st.dirFiles := by
  unfold processDiscovered
  dsimp only
  split
  · next hempty =>
    rw [List.isEmpty_iff] at hempty
    simp [hempty, newChapters]
  · rw [writeMetaIfAbsent_dirFiles]
    split
    · next hempty =>
      rw [List.isEmpty_iff] at hempty
      simp [hempty]
    · rfl

theorem processDiscovered_failed_iff (st : PSState) (synth : SeriesMeta)
    (all : List Chapter) :
    (∃ e, (processDiscovered st synth all).psStatus = .statusFailed e) ↔
      all = [] := by
  unfold processDiscovered
  dsimp only
  split
  · next hempty =>
    rw [List.isEmpty_iff, uniquePipeline_eq_nil_iff] at hempty
    exact ⟨fun _ => hempty, fun _ => ⟨_, rfl⟩⟩
  · next hempty =>
    rw [List.isEmpty_iff, uniquePipeline_eq_nil_iff] at hempty
    constructor
    · rintro ⟨e, he⟩
      split at he <;> cases he
    · intro h
      exact absurd h hempty

theorem processDiscovered_nil (st : PSState) (synth : SeriesMeta) :
    processDiscovered st synth [] =
      { psStatus := .statusFailed "No chapters found from any of the series pages.",
        state := st, queuedTasks := [] } := rfl

theorem processDiscovered_seriesJson_of_some {st : PSState} {m : SeriesMeta}
    (synth : SeriesMeta) (all : List Chapter) (hm : st.seriesJson = some m) :
    (processDiscovered st synth all).state.seriesJson = some m := by
  unfold processDiscovered
  dsimp only
  split
  · exact hm
  · split <;>
    · apply writeMetaIfAbsent_seriesJson_of_some
      simp [hm]

theorem processDiscovered_regenerates {st : PSState} (synth : SeriesMeta)
    (all : List Chapter) (hjson : st.seriesJson = none) (hne : all ≠ []) :
    (processDiscovered st synth all).state.seriesJson = some synth ∧
    (processDiscovered st synth all).state.chaptersCache =
      some ((uniquePipeline all).map (fun c => c.name)) := by
  unfold processDiscovered
  have hnemp : ¬ (uniquePipeline all).isEmpty = true := by
    rw [List.isEmpty_iff, uniquePipeline_eq_nil_iff]
    exact hne
  dsimp only
  rw [if_neg hnemp]
  have hjson2 : ({ st with
      chaptersCache := some ((uniquePipeline all).map (fun c => c.name)) } :
        PSState).seriesJson = none := hjson
  have hw := writeMetaIfAbsent_of_none hjson2 synth
  split <;> simp [hw]

theorem process_series_dirFiles (env : PSEnv) (st : PSState)
    (synth : SeriesMeta) (urls : List String) :
    (process_series env st synth urls).state.dirFiles = st.dirFiles := by
  unfold process_series
  cases env.sitesConfig with
  | none => rfl
  | some cfg => exact processDiscovered_dirFiles st synth _

theorem process_series_queued (env : PSEnv) (cfg : List String)
    (st : PSState) (synth : SeriesMeta) (urls : List String)
    (hcfg : env.sitesConfig = some cfg) :
    (process_series env st synth urls).queuedTasks =
      newChapters (uniquePipeline (discoverChapters env.fetchChapters urls))
        st.dirFiles := by
  unfold process_series
  rw [hcfg]
  exact processDiscovered_queued st synth _

/-! ### `discoverLoop` helper lemmas -/

theorem discoverLoop_foldl_error (fetch : String → SourceOutcome)
    (urls : List String) (e : String) :
    urls.foldl (discoverStep fetch) (.error e) = .error e := by
  induction urls with
  | nil => rfl
  | cons v rest ih =>
    rw [List.foldl_cons]
    exact ih

theorem discoverLoop_raise_aux (fetch : String → SourceOutcome) {u : String}
    (hu : fetch u = .sessionRaise) :
    ∀ (urls : List String) (cs : List Chapter), u ∈ urls →
      ∃ e, urls.foldl (discoverStep fetch) (.ok cs) = .error e := by
  intro urls
  induction urls with
  | nil => intro cs h; cases h
  | cons v rest ih =>
    intro cs hmem
    rw [List.foldl_cons]
    cases hfv : fetch v with
    | sessionRaise =>
      refine ⟨"unhandled exception from _create_flaresolverr_session", ?_⟩
      simp only [discoverStep, hfv]
      exact discoverLoop_foldl_error fetch rest _
    | fetchFail =>
      have hur : u ∈ rest := by
        rcases List.mem_cons.mp hmem with rfl | h
        · rw [hu] at hfv; cases hfv
        · exact h
      simpa [discoverStep, hfv] using ih cs hur
    | chapters new =>
      have hur : u ∈ rest := by
        rcases List.mem_cons.mp hmem with rfl | h
        · rw [hu] at hfv; cases hfv
        · exact h
      simpa [discoverStep, hfv] using ih (cs ++ new) hur

/-- A source whose session creation raises aborts the whole discovery
loop. -/
theorem discoverLoop_raise_of_mem (fetch : String → SourceOutcome)
    {urls : List String} {u : String} (hu : fetch u = .sessionRaise)
    (hmem : u ∈ urls) : ∃ e, discoverLoop fetch urls = .error e :=
  discoverLoop_raise_aux fetch hu urls [] hmem

theorem discoverLoop_ok_aux (fetch : String → SourceOutcome) :
    ∀ (urls : List String) (cs : List Chapter),
      (∀ v ∈ urls, fetch v ≠ .sessionRaise) →
      urls.foldl (discoverStep fetch) (.ok cs)
        = .ok (urls.foldl (fun acc v =>
            match sourceToOption (fetch v) with
            | none => acc
            | some new => acc ++ new) cs) := by
  intro urls
  induction urls with
  | nil => intro cs _; rfl
  | cons v rest ih =>
    intro cs h
    have hrest := fun x hx => h x (List.mem_cons_of_mem _ hx)
    rw [List.foldl_cons, List.foldl_cons]
    cases hfv : fetch v with
    | sessionRaise => exact absurd hfv (h v (List.mem_cons_self _ _))
    | fetchFail =>
      simpa [discoverStep, hfv, sourceToOption] using ih cs hrest
    | chapters new =>
      simpa [discoverStep, hfv, sourceToOption] using ih (cs ++ new) hrest

/-- On a non-raising environment the full discovery loop returns exactly
the chapters of the restricted loop. -/
theorem discoverLoop_ok_of_noraise (fetch : String → SourceOutcome)
    (urls : List String) (h : ∀ v ∈ urls, fetch v ≠ .sessionRaise) :
    discoverLoop fetch urls =
      .ok (discoverChapters (fun v => sourceToOption (fetch v)) urls) :=
  discoverLoop_ok_aux fetch urls [] h

/-- On a non-raising environment the complete `process_series` model
returns the restricted model's outcome. -/
theorem process_series_full_noraise (env : DiscoveryEnv) (st : PSState)
    (synth : SeriesMeta) (urls : List String)
    (h : ∀ v ∈ urls, env.fetchSource v ≠ .sessionRaise) :
    process_series_full env st synth urls =
      .returned (process_series
        ⟨env.sitesConfig, fun v => sourceToOption (env.fetchSource v)⟩
        st synth urls) := by
  unfold process_series_full process_series
  cases env.sitesConfig with
  | none => rfl
  | some cfg =>
    rw [discoverLoop_ok_of_noraise env.fetchSource urls h]

/-- **C1.** When the chapter list and the on-disk archive set are
unchanged, the missing-chapter delta of `process_series` is a pure function
of (chapter labels, archive base-name set): two calls over archive sets
with equal membership queue the same chapters; the membership test compares
the sanitized label against the `.cbz` base names; and a second discovery
run on the state produced by the first (no external changes in between)
queues no chapter that the first did not already queue. -/
theorem c1_missing_delta (env : PSEnv) (cfg : List String)
    (stA stB : PSState) (synthA synthB : SeriesMeta) (urls : List String)
    (hcfg : env.sitesConfig = some cfg)
    (hmem : ∀ a, a ∈ downloadedCbzNames stA.dirFiles ↔
        a ∈ downloadedCbzNames stB.dirFiles) :
    ((process_series env stA synthA urls).queuedTasks
        = (process_series env stB synthB urls).queuedTasks) ∧
    (∀ c, c ∈ (process_series env stA synthA urls).queuedTasks ↔
        (c ∈ uniquePipeline (discoverChapters env.fetchChapters urls) ∧
         sanitize_filename c.name ∉ downloadedCbzNames stA.dirFiles)) ∧
    ((process_series env (process_series env stA synthA urls).state
        synthA urls).queuedTasks.filter
      (fun c => !((process_series env stA synthA urls).queuedTasks.contains c))
        = []) := by
  have hq1 := process_series_queued env cfg stA synthA urls hcfg
  have hq2 := process_series_queued env cfg stB synthB urls hcfg
  have hqrun := process_series_queued env cfg
    (process_series env stA synthA urls).state synthA urls hcfg
  refine ⟨?_, ?_, ?_⟩
  · rw [hq1, hq2]
    exact newChapters_congr _ hmem
  · intro c
    rw [hq1]
    exact mem_newChapters _ _ c
  · rw [hqrun, process_series_dirFiles, ← hq1]
    apply List.filter_eq_nil_iff.mpr
    intro c hc
    have hcon : (process_series env stA synthA urls).queuedTasks.contains c = true :=
      List.elem_iff.mpr hc
    simp [hcon]
    exact hc

/-- A concrete `series.json` document used by several witnesses. -/
def wmeta : SeriesMeta :=
  ⟨"Unknown", "Series", 0, "", "", "", 1, "Continuing"⟩

/-- A second concrete `series.json` document used by several witnesses. -/
def wmeta2 : SeriesMeta :=
  ⟨"P", "S", 2020, "d", "d", "cover.jpg", 1, "Ended"⟩

/-- Witness for **C1** at a concrete environment and state. -/
theorem c1_missing_delta_witness :
    ((process_series ⟨some ["example.com"],
          fun _ => some [⟨"u1", "Chapter 0001"⟩]⟩
        ⟨none, none, ["Chapter 0001.cbz"]⟩ wmeta ["s1"]).queuedTasks
      = (process_series ⟨some ["example.com"],
          fun _ => some [⟨"u1", "Chapter 0001"⟩]⟩
        ⟨none, none, ["Chapter 0001.cbz"]⟩ wmeta ["s1"]).queuedTasks) ∧
    (∀ c, c ∈ (process_series ⟨some ["example.com"],
          fun _ => some [⟨"u1", "Chapter 0001"⟩]⟩
        ⟨none, none, ["Chapter 0001.cbz"]⟩ wmeta ["s1"]).queuedTasks ↔
        (c ∈ uniquePipeline (discoverChapters
            (fun _ => some [⟨"u1", "Chapter 0001"⟩]) ["s1"]) ∧
         sanitize_filename c.name ∉
           downloadedCbzNames ["Chapter 0001.cbz"])) ∧
    ((process_series ⟨some ["example.com"],
          fun _ => some [⟨"u1", "Chapter 0001"⟩]⟩
        (process_series ⟨some ["example.com"],
            fun _ => some [⟨"u1", "Chapter 0001"⟩]⟩
          ⟨none, none, ["Chapter 0001.cbz"]⟩ wmeta ["s1"]).state
        wmeta ["s1"]).queuedTasks.filter
      (fun c => !((process_series ⟨some ["example.com"],
            fun _ => some [⟨"u1", "Chapter 0001"⟩]⟩
          ⟨none, none, ["Chapter 0001.cbz"]⟩ wmeta ["s1"]).queuedTasks.contains
            c)) = []) :=
  c1_missing_delta ⟨some ["example.com"], fun _ => some [⟨"u1", "Chapter 0001"⟩]⟩
    ["example.com"] ⟨none, none, ["Chapter 0001.cbz"]⟩
    ⟨none, none, ["Chapter 0001.cbz"]⟩ wmeta wmeta ["s1"] rfl (fun _ => Iff.rfl)

/-- **C2** (corrected).  Error handling of `process_series`: a
site-selector configuration load failure fails the whole call with no
partial result (state unchanged, nothing queued); a non-zero `gallery-dl`
exit for one source URL is recovered, the remaining sources still
contributing; but — contrary to the claim as stated — an uncaught
`_create_flaresolverr_session` exception for any source aborts the whole
call even when other sources yielded chapters; on executions in which no
source raises, the complete model agrees with the restricted one and the
call fails exactly when zero chapters were found across all sources. -/
theorem c2_error_handling (env : DiscoveryEnv) (cfg : List String)
    (st : PSState) (synth : SeriesMeta) (urls us1 us2 : List String)
    (u : String) :
    (env.sitesConfig = none →
        process_series_full env st synth urls =
          .returned { psStatus := .statusFailed "Could not load sites_config.json",
                      state := st, queuedTasks := [] }) ∧
    (env.fetchSource u = .fetchFail →
        discoverLoop env.fetchSource (us1 ++ u :: us2)
          = discoverLoop env.fetchSource (us1 ++ us2)) ∧
    (env.sitesConfig = some cfg → env.fetchSource u = .sessionRaise →
      u ∈ urls →
        process_series_full env st synth urls = .raised st) ∧
    ((∀ v ∈ urls, env.fetchSource v ≠ .sessionRaise) →
        process_series_full env st synth urls =
          .returned (process_series
            ⟨env.sitesConfig, fun v => sourceToOption (env.fetchSource v)⟩
            st synth urls)) ∧
    (env.sitesConfig = some cfg →
      (∀ v ∈ urls, env.fetchSource v ≠ .sessionRaise) →
      ∀ o, process_series_full env st synth urls = .returned o →
        ((∃ e, o.psStatus = .statusFailed e) ↔
          discoverLoop env.fetchSource urls = .ok [])) := by
  refine ⟨?_, ?_, ?_, process_series_full_noraise env st synth urls, ?_⟩
  · intro h
    unfold process_series_full
    rw [h]
  · intro hu
    unfold discoverLoop
    rw [List.foldl_append, List.foldl_append, List.foldl_cons]
    have hstep : ∀ acc, discoverStep env.fetchSource acc u = acc := by
      intro acc
      cases acc <;> simp [discoverStep, hu]
    rw [hstep]
  · intro hcfg hu hmem
    obtain ⟨e, he⟩ := discoverLoop_raise_of_mem env.fetchSource hu hmem
    unfold process_series_full
    rw [hcfg, he]
  · intro hcfg hnoraise o ho
    rw [discoverLoop_ok_of_noraise env.fetchSource urls hnoraise]
    unfold process_series_full at ho
    rw [hcfg, discoverLoop_ok_of_noraise env.fetchSource urls hnoraise] at ho
    obtain rfl := (PSResult.returned.inj ho).symm
    rw [processDiscovered_failed_iff]
    constructor
    · intro h
      rw [h]
    · intro h
      exact Except.ok.inj h

/-- The environment of the **C2** counterexample: source `"s0"` has a
non-zero `gallery-dl` exit (recoverable), `"s1"` yields one chapter, and
`"s2"` raises an uncaught session-creation exception. -/
def cexC2Env : DiscoveryEnv :=
  ⟨some ["example.com"],
   fun v => if v = "s1" then .chapters [⟨"u1", "Chapter 0001"⟩]
            else if v = "s0" then .fetchFail
            else .sessionRaise⟩

/-- Counterexample for **C2** as stated: on `cexC2Env` the sources
`["s0", "s1"]` alone discover a chapter (the `"s0"` fetch failure is
recovered), yet adding the raising source `"s2"` makes the whole
`process_series` call die with an uncaught exception — the per-source
failure is not recovered, the chapter found by `"s1"` notwithstanding, so
the call fails although chapters were found. -/
theorem c2_session_raise_counterexample :
    discoverLoop cexC2Env.fetchSource ["s0", "s1"]
      = .ok [⟨"u1", "Chapter 0001"⟩] ∧
    process_series_full cexC2Env ⟨none, none, []⟩ wmeta ["s0", "s1"]
      = .returned { psStatus := .statusRunning 1,
                    state := ⟨some wmeta, some ["Chapter 0001"], []⟩,
                    queuedTasks := [⟨"u1", "Chapter 0001"⟩] } ∧
    process_series_full cexC2Env ⟨none, none, []⟩ wmeta ["s0", "s1", "s2"]
      = .raised ⟨none, none, []⟩ :=
  ⟨rfl, by decide, by decide⟩

/-- Witness for **C2**, applying the corrected theorem on `cexC2Env` at
the raising source `"s2"` and, for the recovered-failure conjunct, at the
failing source `"s0"`. -/
theorem c2_error_handling_witness :
    ((cexC2Env.sitesConfig = none →
        process_series_full cexC2Env ⟨none, none, []⟩ wmeta ["s0", "s1", "s2"] =
          .returned { psStatus := .statusFailed "Could not load sites_config.json",
                      state := ⟨none, none, []⟩, queuedTasks := [] }) ∧
    (cexC2Env.fetchSource "s2" = .fetchFail →
        discoverLoop cexC2Env.fetchSource (["s0"] ++ "s2" :: ["s1"])
          = discoverLoop cexC2Env.fetchSource (["s0"] ++ ["s1"])) ∧
    (cexC2Env.sitesConfig = some ["example.com"] →
      cexC2Env.fetchSource "s2" = .sessionRaise →
      "s2" ∈ ["s0", "s1", "s2"] →
        process_series_full cexC2Env ⟨none, none, []⟩ wmeta ["s0", "s1", "s2"]
          = .raised ⟨none, none, []⟩) ∧
    ((∀ v ∈ ["s0", "s1", "s2"], cexC2Env.fetchSource v ≠ .sessionRaise) →
        process_series_full cexC2Env ⟨none, none, []⟩ wmeta ["s0", "s1", "s2"] =
          .returned (process_series
            ⟨cexC2Env.sitesConfig, fun v => sourceToOption (cexC2Env.fetchSource v)⟩
            ⟨none, none, []⟩ wmeta ["s0", "s1", "s2"])) ∧
    (cexC2Env.sitesConfig = some ["example.com"] →
      (∀ v ∈ ["s0", "s1", "s2"], cexC2Env.fetchSource v ≠ .sessionRaise) →
      ∀ o, process_series_full cexC2Env ⟨none, none, []⟩ wmeta ["s0", "s1", "s2"]
          = .returned o →
        ((∃ e, o.psStatus = .statusFailed e) ↔
          discoverLoop cexC2Env.fetchSource ["s0", "s1", "s2"] = .ok []))) ∧
    (cexC2Env.fetchSource "s0" = .fetchFail →
        discoverLoop cexC2Env.fetchSource ([] ++ "s0" :: ["s1"])
          = discoverLoop cexC2Env.fetchSource ([] ++ ["s1"])) :=
  ⟨c2_error_handling cexC2Env ["example.com"] ⟨none, none, []⟩ wmeta
      ["s0", "s1", "s2"] ["s0"] ["s1"] "s2",
   (c2_error_handling cexC2Env ["example.com"] ⟨none, none, []⟩ wmeta
      ["s0", "s1", "s2"] [] ["s1"] "s0").2.1⟩

/-- **C8.** A discovery run leaves an existing `series.json` unchanged
(metadata is written only when absent); the metadata-refresh operation
deletes `series.json` and the cached chapter-name list before re-running
discovery (so they stay deleted if discovery then fails), and when
discovery succeeds both are regenerated. -/
theorem c8_metadata_frame (env : PSEnv) (cfg : List String) (st : PSState)
    (synth : SeriesMeta) (urls : List String) (m : SeriesMeta) :
    (st.seriesJson = some m →
        (process_series env st synth urls).state.seriesJson = some m) ∧
    ((∃ e, (refresh_series_metadata env st synth urls).psStatus
          = .statusFailed e) →
        (refresh_series_metadata env st synth urls).state.seriesJson = none ∧
        (refresh_series_metadata env st synth urls).state.chaptersCache
          = none) ∧
    (env.sitesConfig = some cfg →
      discoverChapters env.fetchChapters urls ≠ [] →
        (refresh_series_metadata env st synth urls).state.seriesJson
          = some synth ∧
        (refresh_series_metadata env st synth urls).state.chaptersCache
          = some ((uniquePipeline (discoverChapters env.fetchChapters
              urls)).map (fun c => c.name))) := by
  refine ⟨?_, ?_, ?_⟩
  · intro hm
    unfold process_series
    cases hc : env.sitesConfig with
    | none => exact hm
    | some cfg' => exact processDiscovered_seriesJson_of_some synth _ hm
  · intro hfail
    cases hc : env.sitesConfig with
    | none =>
      unfold refresh_series_metadata process_series
      rw [hc]
      exact ⟨rfl, rfl⟩
    | some cfg' =>
      unfold refresh_series_metadata process_series at hfail ⊢
      rw [hc] at hfail ⊢
      dsimp only at hfail ⊢
      have hnil := (processDiscovered_failed_iff _ _ _).mp hfail
      rw [hnil, processDiscovered_nil]
      exact ⟨rfl, rfl⟩
  · intro hcfg hne
    unfold refresh_series_metadata process_series
    rw [hcfg]
    dsimp only
    exact processDiscovered_regenerates synth _ rfl hne

/-- Witness for **C8** at a concrete environment and state. -/
theorem c8_metadata_frame_witness :
    ((⟨some wmeta, none, []⟩ : PSState).seriesJson = some wmeta →
        (process_series ⟨some ["example.com"],
            fun _ => some [⟨"u1", "Chapter 0001"⟩]⟩
          ⟨some wmeta, none, []⟩ wmeta2 ["s1"]).state.seriesJson
          = some wmeta) ∧
    ((∃ e, (refresh_series_metadata ⟨some ["example.com"],
            fun _ => some [⟨"u1", "Chapter 0001"⟩]⟩
          ⟨some wmeta, none, []⟩ wmeta2 ["s1"]).psStatus = .statusFailed e) →
        (refresh_series_metadata ⟨some ["example.com"],
            fun _ => some [⟨"u1", "Chapter 0001"⟩]⟩
          ⟨some wmeta, none, []⟩ wmeta2 ["s1"]).state.seriesJson = none ∧
        (refresh_series_metadata ⟨some ["example.com"],
            fun _ => some [⟨"u1", "Chapter 0001"⟩]⟩
          ⟨some wmeta, none, []⟩ wmeta2 ["s1"]).state.chaptersCache = none) ∧
    ((⟨some ["example.com"], fun _ => some [⟨"u1", "Chapter 0001"⟩]⟩ :
          PSEnv).sitesConfig = some ["example.com"] →
      discoverChapters (fun _ => some [⟨"u1", "Chapter 0001"⟩]) ["s1"] ≠ [] →
        (refresh_series_metadata ⟨some ["example.com"],
            fun _ => some [⟨"u1", "Chapter 0001"⟩]⟩
          ⟨some wmeta, none, []⟩ wmeta2 ["s1"]).state.seriesJson
          = some wmeta2 ∧
        (refresh_series_metadata ⟨some ["example.com"],
            fun _ => some [⟨"u1", "Chapter 0001"⟩]⟩
          ⟨some wmeta, none, []⟩ wmeta2 ["s1"]).state.chaptersCache
          = some ((uniquePipeline (discoverChapters
              (fun _ => some [⟨"u1", "Chapter 0001"⟩]) ["s1"])).map
            (fun c => c.name))) :=
  c8_metadata_frame ⟨some ["example.com"], fun _ => some [⟨"u1", "Chapter 0001"⟩]⟩
    ["example.com"] ⟨some wmeta, none, []⟩ wmeta2 ["s1"] wmeta

/-- If every attempt of a task raises, the queue exhausts its retries:
with 3 retries allowed, 4 invocations happen and the task fails
terminally. -/
theorem queueRun_exhausts (attempt : Nat → DlStatus)
    (h : ∀ i, attempt i = .retrying) :
    queueRun attempt 0 3 = (.exhausted, 4) := by
  simp [queueRun, h 0, h 1, h 2, h 3]

/-- **C5.** `download_single_url` returns the terminal, non-retried
`Failed` exactly when the working directory is empty after a nominally
successful fetch; an attempt whose direct fetch fails and whose
FlareSolverr-assisted retry also fails raises (`retrying`), and a task all
of whose attempts raise is re-attempted by the queue up to 3 additional
times before terminal failure (4 invocations in total); and it returns
`Completed` exactly when the archive was created, in which case the
notification is attempted. -/
theorem c5_download_task (env : DlEnv) (use_flaresolverr : Bool)
    (attemptEnvs : Nat → DlEnv)
    (hfail : ∀ i, ((attemptEnvs i).directExit ≠ 0 ∨
        (attemptEnvs i).directFiles = false) ∧
      ((attemptEnvs i).fsExit ≠ 0 ∨ (attemptEnvs i).fsArgsOk = false)) :
    ((download_single_url env use_flaresolverr).dlStatus = .failed ↔
        (nominalFetchSuccess env use_flaresolverr = true ∧
         finalDirEmpty env use_flaresolverr = true)) ∧
    (∀ i, (download_single_url (attemptEnvs i) true).dlStatus = .retrying) ∧
    (queueRun (fun i => (download_single_url (attemptEnvs i) true).dlStatus)
        0 3 = (.exhausted, 4)) ∧
    ((download_single_url env use_flaresolverr).dlStatus = .completed ↔
        (download_single_url env use_flaresolverr).cbzCreated = true) ∧
    ((download_single_url env use_flaresolverr).dlStatus = .completed →
        (download_single_url env use_flaresolverr).webhookAttempted = true) := by
  have hretry : ∀ i, (download_single_url (attemptEnvs i) true).dlStatus
      = .retrying := by
    intro i
    obtain ⟨hdirect, hfs⟩ := hfail i
    unfold download_single_url
    have hdko : ((attemptEnvs i).directExit == 0 && (attemptEnvs i).directFiles)
        = false := by
      rcases hdirect with h | h
      · simp [h]
      · simp [h]
    rw [hdko]
    simp only [Bool.false_eq_true, if_false, if_true]
    rcases hfs with h | h
    · by_cases hargs : (attemptEnvs i).fsArgsOk
      · simp [hargs, h]
      · simp [hargs]
    · simp [h]
  refine ⟨?_, hretry, queueRun_exhausts _ hretry, ?_, ?_⟩
  · obtain ⟨de, df, fa, fe, ff⟩ := env
    by_cases hde : de = 0 <;> cases df <;> cases use_flaresolverr <;>
      cases fa <;> by_cases hfe : fe = 0 <;> cases ff <;>
      simp [download_single_url, nominalFetchSuccess, finalDirEmpty, hde, hfe]
  · obtain ⟨de, df, fa, fe, ff⟩ := env
    by_cases hde : de = 0 <;> cases df <;> cases use_flaresolverr <;>
      cases fa <;> by_cases hfe : fe = 0 <;> cases ff <;>
      simp [download_single_url, hde, hfe]
  · obtain ⟨de, df, fa, fe, ff⟩ := env
    by_cases hde : de = 0 <;> cases df <;> cases use_flaresolverr <;>
      cases fa <;> by_cases hfe : fe = 0 <;> cases ff <;>
      simp [download_single_url, hde, hfe]

/-- Witness for **C5**: FS-path empty-directory gives `Failed`, and a
constant always-raising attempt environment exhausts the queue. -/
theorem c5_download_task_witness :
    ((download_single_url ⟨1, false, true, 0, false⟩ true).dlStatus
        = .failed ↔
      (nominalFetchSuccess ⟨1, false, true, 0, false⟩ true = true ∧
       finalDirEmpty ⟨1, false, true, 0, false⟩ true = true)) ∧
    (∀ i, (download_single_url ((fun _ => ⟨1, false, true, 1, false⟩ :
        Nat → DlEnv) i) true).dlStatus = .retrying) ∧
    (queueRun (fun i => (download_single_url ((fun _ =>
        ⟨1, false, true, 1, false⟩ : Nat → DlEnv) i) true).dlStatus) 0 3
      = (.exhausted, 4)) ∧
    ((download_single_url ⟨1, false, true, 0, false⟩ true).dlStatus
        = .completed ↔
      (download_single_url ⟨1, false, true, 0, false⟩ true).cbzCreated
        = true) ∧
    ((download_single_url ⟨1, false, true, 0, false⟩ true).dlStatus
        = .completed →
      (download_single_url ⟨1, false, true, 0, false⟩ true).webhookAttempted
        = true) :=
  c5_download_task ⟨1, false, true, 0, false⟩ true
    (fun _ => ⟨1, false, true, 1, false⟩)
    (fun _ => ⟨Or.inl one_ne_zero, Or.inl one_ne_zero⟩)

/-! ### String-sort helper lemmas -/

theorem insertStr_length (s : String) (l : List String) :
    (insertStr s l).length = l.length + 1 := by
  induction l with
  | nil => rfl
  | cons t rest ih =>
    unfold insertStr
    split <;> simp [ih]

theorem sortStrings_length (l : List String) :
    (sortStrings l).length = l.length := by
  induction l with
  | nil => rfl
  | cons s rest ih =>
    unfold sortStrings at ih ⊢
    simp [List.foldr_cons, insertStr_length, ih]

theorem sortStrings_ne_nil {l : List String} (h : l ≠ []) :
    sortStrings l ≠ [] := by
  intro hs
  have := sortStrings_length l
  rw [hs] at this
  exact h (List.eq_nil_of_length_eq_zero this.symm)

theorem mem_insertStr {x s : String} :
    ∀ {l : List String}, x ∈ insertStr s l ↔ x = s ∨ x ∈ l
  | [] => by simp [insertStr]
  | t :: rest => by
    unfold insertStr
    split
    · simp
    · rw [List.mem_cons, List.mem_cons, mem_insertStr]
      tauto

theorem mem_sortStrings {x : String} :
    ∀ {l : List String}, x ∈ sortStrings l ↔ x ∈ l
  | [] => Iff.rfl
  | s :: rest => by
    show x ∈ insertStr s (sortStrings rest) ↔ _
    rw [mem_insertStr, List.mem_cons, mem_sortStrings]

/-- The relation the source-URL lists are sorted by. -/
def urlLe (a b : String) : Prop := strLe a b = true

theorem insertStr_sorted (s : String) (l : List String)
    (h : l.Sorted urlLe) : (insertStr s l).Sorted urlLe := by
  induction l with
  | nil => simp [insertStr, List.Sorted]
  | cons t rest ih =>
    by_cases hle : strLe s t = true
    all_goals simp only [insertStr]
    · rw [if_pos hle]
      refine List.sorted_cons.mpr ⟨?_, h⟩
      intro b hb
      rcases List.mem_cons.mp hb with rfl | hb
      · exact hle
      · exact charsLe_trans hle ((List.sorted_cons.mp h).1 b hb)
    · rw [if_neg hle]
      have hts : urlLe t s := by
        rcases charsLe_total s.data t.data with hc | hc
        · exact absurd hc hle
        · exact hc
      refine List.sorted_cons.mpr ⟨?_, ih (List.sorted_cons.mp h).2⟩
      intro b hb
      rcases mem_insertStr.mp hb with rfl | hb
      · exact hts
      · exact (List.sorted_cons.mp h).1 b hb

theorem sortStrings_sorted (l : List String) :
    (sortStrings l).Sorted urlLe := by
  induction l with
  | nil => simp [sortStrings, List.Sorted]
  | cons s rest ih => exact insertStr_sorted s _ ih

theorem dedupStrings_foldl_ne_nil (l : List String) (acc : List String)
    (h : acc ≠ []) :
    l.foldl (fun acc' s => if s ∈ acc' then acc' else acc' ++ [s]) acc ≠ [] := by
  induction l generalizing acc with
  | nil => exact h
  | cons s rest ih =>
    rw [List.foldl_cons]
    apply ih
    split
    · exact h
    · simp

theorem dedupStrings_ne_nil {l : List String} (h : l ≠ []) :
    dedupStrings l ≠ [] := by
  cases l with
  | nil => exact absurd rfl h
  | cons s rest =>
    unfold dedupStrings
    rw [List.foldl_cons]
    apply dedupStrings_foldl_ne_nil
    simp

theorem lookupEntry_mem {reg : Registry} {sfn title : Option String}
    {e : WatchEntry} (h : lookupEntry reg sfn title = some e) : e ∈ reg := by
  unfold lookupEntry at h
  cases sfn with
  | none =>
    cases title with
    | none => cases h
    | some t =>
      dsimp only at h
      exact List.mem_of_find?_eq_some h
  | some f =>
    dsimp only at h
    cases hf : findEntry reg f with
    | some e2 =>
      rw [hf] at h
      obtain rfl := Option.some.inj h
      exact List.mem_of_find?_eq_some hf
    | none =>
      rw [hf] at h
      dsimp only at h
      cases title with
      | none => cases h
      | some t =>
        dsimp only at h
        exact List.mem_of_find?_eq_some h

/-- **C6** (corrected).  Removing the last remaining source URL of a
watch entry deletes the entry entirely, while removing a non-last URL
leaves the entry present with the remaining URLs (sorted order is
preserved).  The invariant that `series_urls` is never empty while an
entry exists is preserved by the remove-source, add-source and bulk-add
operations, and by the create-download upsert whenever it merges into an
existing entry or the request carries at least one URL — but not, contrary
to the claim as stated, by *every* registry operation: the create-download
upsert inserts an entry with empty `series_urls` when given an empty URL
list together with a fresh title
(`c6_create_download_job_counterexample`). -/
theorem c6_remove_source_invariant (reg : Registry) (folder url : String)
    (e : WatchEntry)
    (hfind : findEntry reg folder = some e)
    (hurl : url ∈ e.series_urls)
    (hnodup : reg.Nodup)
    (huniq : ∀ x ∈ reg, x.series_folder_name = folder → x = e) :
    (e.series_urls = [url] →
        remove_source_from_series reg folder url = .ok (reg.erase e) ∧
        ∀ x ∈ reg.erase e, x.series_folder_name ≠ folder) ∧
    (e.series_urls ≠ [url] →
        remove_source_from_series reg folder url =
          .ok (reg.erase e ++
            [{ e with series_urls := e.series_urls.erase url }]) ∧
        e.series_urls.erase url ≠ [] ∧
        (∃ e' ∈ reg.erase e ++
            [{ e with series_urls := e.series_urls.erase url }],
          e'.series_folder_name = folder ∧
          e'.series_urls = e.series_urls.erase url) ∧
        (e.series_urls.Sorted urlLe →
            (e.series_urls.erase url).Sorted urlLe)) ∧
    ((∀ x ∈ reg, x.series_urls ≠ []) →
        ∀ reg2, remove_source_from_series reg folder url = .ok reg2 →
          ∀ x ∈ reg2, x.series_urls ≠ []) ∧
    ((∀ x ∈ reg, x.series_urls ≠ []) →
        ∀ reg2, add_source_to_series reg folder url = .ok reg2 →
          ∀ x ∈ reg2, x.series_urls ≠ []) ∧
    (∀ title lib fr, (∀ x ∈ reg, x.series_urls ≠ []) →
        ∀ x ∈ bulkAddStep reg url title lib fr, x.series_urls ≠ []) ∧
    (∀ src lib sfn t ufs fr fb e2 reg2, (∀ x ∈ reg, x.series_urls ≠ []) →
        lookupEntry reg sfn t = some e2 →
        create_download_job reg src lib sfn t ufs fr fb = .ok reg2 →
        ∀ x ∈ reg2, x.series_urls ≠ []) ∧
    (∀ src lib sfn t ufs fr fb reg2, (∀ x ∈ reg, x.series_urls ≠ []) →
        src ≠ [] →
        create_download_job reg src lib sfn t ufs fr fb = .ok reg2 →
        ∀ x ∈ reg2, x.series_urls ≠ []) := by
  have hmem : e ∈ reg := List.mem_of_find?_eq_some hfind
  have hename : e.series_folder_name = folder := by
    have := List.find?_some hfind
    simpa using this
  refine ⟨?_, ?_, ?_, ?_, ?_, ?_, ?_⟩
  · intro hlast
    have herase : e.series_urls.erase url = [] := by
      rw [hlast, List.erase_cons_head]
    constructor
    · unfold remove_source_from_series
      rw [hfind]
      dsimp only
      rw [if_pos hurl]
      simp [herase]
    · intro x hx hname
      obtain ⟨hxe, hxreg⟩ := hnodup.mem_erase_iff.mp hx
      exact hxe (huniq x hxreg hname)
  · intro hne
    have herase_ne : e.series_urls.erase url ≠ [] := by
      intro hz
      have hlen := List.length_erase_of_mem hurl
      rw [hz] at hlen
      simp only [List.length_nil] at hlen
      have hone : e.series_urls.length = 1 := by
        have hpos : 0 < e.series_urls.length := List.length_pos.mpr
          (fun hn => by rw [hn] at hurl; cases hurl)
        omega
      obtain ⟨a, ha⟩ := List.length_eq_one.mp hone
      rw [ha] at hurl
      rcases List.mem_singleton.mp hurl with rfl
      exact hne ha
    refine ⟨?_, herase_ne, ?_, ?_⟩
    · unfold remove_source_from_series
      rw [hfind]
      dsimp only
      rw [if_pos hurl]
      have : ({ e with series_urls := e.series_urls.erase url } :
          WatchEntry).series_urls.isEmpty = false := by
        simp [List.isEmpty_iff, herase_ne]
      simp [this]
    · exact ⟨{ e with series_urls := e.series_urls.erase url },
        List.mem_append_right _ (List.mem_singleton_self _), hename, rfl⟩
    · intro hs
      exact hs.sublist (List.erase_sublist url e.series_urls)
  · intro hinv reg2 hok x hx
    unfold remove_source_from_series at hok
    rw [hfind] at hok
    dsimp only at hok
    rw [if_pos hurl] at hok
    by_cases hemp : (({ e with series_urls := e.series_urls.erase url } :
        WatchEntry).series_urls.isEmpty) = true
    · rw [if_pos hemp] at hok
      obtain rfl := Except.ok.inj hok
      exact hinv x (List.mem_of_mem_erase hx)
    · rw [if_neg hemp] at hok
      obtain rfl := Except.ok.inj hok
      rcases List.mem_append.mp hx with hx | hx
      · exact hinv x (List.mem_of_mem_erase hx)
      · rcases List.mem_singleton.mp hx with rfl
        simp only [List.isEmpty_iff] at hemp
        exact hemp
  · intro hinv reg2 hok x hx
    unfold add_source_to_series at hok
    rw [hfind] at hok
    dsimp only at hok
    obtain rfl := Except.ok.inj hok
    rcases List.mem_append.mp hx with hx | hx
    · exact hinv x (List.mem_of_mem_erase hx)
    · rcases List.mem_singleton.mp hx with rfl
      by_cases hin : url ∈ e.series_urls
      · simp only [if_pos hin]
        exact hinv e hmem
      · simp only [if_neg hin]
        exact sortStrings_ne_nil (by simp)
  · intro title lib fr hinv x hx
    unfold bulkAddStep at hx
    dsimp only at hx
    cases hfind2 : findEntry reg (sanitize_filename title) with
    | some e2 =>
      rw [hfind2] at hx
      dsimp only at hx
      by_cases hin : url ∈ e2.series_urls
      · rw [if_pos hin] at hx
        exact hinv x hx
      · rw [if_neg hin] at hx
        rcases List.mem_append.mp hx with hx | hx
        · exact hinv x (List.mem_of_mem_erase hx)
        · rcases List.mem_singleton.mp hx with rfl
          exact sortStrings_ne_nil (by simp)
    | none =>
      rw [hfind2] at hx
      dsimp only at hx
      rcases List.mem_append.mp hx with hx | hx
      · exact hinv x hx
      · rcases List.mem_singleton.mp hx with rfl
        exact sortStrings_ne_nil (by simp)
  · intro src lib sfn t ufs fr fb e2 reg2 hinv hlook hok x hx
    unfold create_download_job at hok
    split at hok
    · cases hok
    · rw [hlook] at hok
      dsimp only at hok
      obtain rfl := Except.ok.inj hok
      rcases List.mem_append.mp hx with hx | hx
      · exact hinv x (List.mem_of_mem_erase hx)
      · rcases List.mem_singleton.mp hx with rfl
        have hne2 : e2.series_urls ++ src ≠ [] := by
          have := hinv e2 (lookupEntry_mem hlook)
          intro hz
          rw [List.append_eq_nil] at hz
          exact this hz.1
        exact sortStrings_ne_nil (dedupStrings_ne_nil hne2)
  · intro src lib sfn t ufs fr fb reg2 hinv hsrc hok x hx
    unfold create_download_job at hok
    split at hok
    · cases hok
    · cases hlook : lookupEntry reg sfn t with
      | some e2 =>
        rw [hlook] at hok
        dsimp only at hok
        obtain rfl := Except.ok.inj hok
        rcases List.mem_append.mp hx with hx | hx
        · exact hinv x (List.mem_of_mem_erase hx)
        · rcases List.mem_singleton.mp hx with rfl
          have hne2 : e2.series_urls ++ src ≠ [] := by
            intro hz
            rw [List.append_eq_nil] at hz
            exact hsrc hz.2
          exact sortStrings_ne_nil (dedupStrings_ne_nil hne2)
      | none =>
        rw [hlook] at hok
        cases t with
        | some tt =>
          dsimp only at hok
          obtain rfl := Except.ok.inj hok
          rcases List.mem_append.mp hx with hx | hx
          · exact hinv x hx
          · rcases List.mem_singleton.mp hx with rfl
            exact sortStrings_ne_nil hsrc
        | none =>
          cases hsrcs : src with
          | nil => exact absurd hsrcs hsrc
          | cons s srest =>
            rw [hsrcs] at hok
            dsimp only at hok
            obtain rfl := Except.ok.inj hok
            rcases List.mem_append.mp hx with hx | hx
            · exact hinv x hx
            · rcases List.mem_singleton.mp hx with rfl
              exact sortStrings_ne_nil (by simp)

/-- A concrete one-entry registry used by witnesses. -/
def wreg : Registry := [⟨"A", ["u1", "u2"], "manga", true, "daily"⟩]

/-- The entry of `wreg`. -/
def wentry : WatchEntry := ⟨"A", ["u1", "u2"], "manga", true, "daily"⟩

/-- Witness for **C6** at the one-entry registry `wreg`, removing the
non-last URL `"u1"`. -/
theorem c6_remove_source_invariant_witness :
    (wentry.series_urls = ["u1"] →
        remove_source_from_series wreg "A" "u1" = .ok (wreg.erase wentry) ∧
        ∀ x ∈ wreg.erase wentry, x.series_folder_name ≠ "A") ∧
    (wentry.series_urls ≠ ["u1"] →
        remove_source_from_series wreg "A" "u1" =
          .ok (wreg.erase wentry ++
            [{ wentry with series_urls := wentry.series_urls.erase "u1" }]) ∧
        wentry.series_urls.erase "u1" ≠ [] ∧
        (∃ e' ∈ wreg.erase wentry ++
            [{ wentry with series_urls := wentry.series_urls.erase "u1" }],
          e'.series_folder_name = "A" ∧
          e'.series_urls = wentry.series_urls.erase "u1") ∧
        (wentry.series_urls.Sorted urlLe →
            (wentry.series_urls.erase "u1").Sorted urlLe)) ∧
    ((∀ x ∈ wreg, x.series_urls ≠ []) →
        ∀ reg2, remove_source_from_series wreg "A" "u1" = .ok reg2 →
          ∀ x ∈ reg2, x.series_urls ≠ []) ∧
    ((∀ x ∈ wreg, x.series_urls ≠ []) →
        ∀ reg2, add_source_to_series wreg "A" "u1" = .ok reg2 →
          ∀ x ∈ reg2, x.series_urls ≠ []) ∧
    (∀ title lib fr, (∀ x ∈ wreg, x.series_urls ≠ []) →
        ∀ x ∈ bulkAddStep wreg "u1" title lib fr, x.series_urls ≠ []) ∧
    (∀ src lib sfn t ufs fr fb e2 reg2, (∀ x ∈ wreg, x.series_urls ≠ []) →
        lookupEntry wreg sfn t = some e2 →
        create_download_job wreg src lib sfn t ufs fr fb = .ok reg2 →
        ∀ x ∈ reg2, x.series_urls ≠ []) ∧
    (∀ src lib sfn t ufs fr fb reg2, (∀ x ∈ wreg, x.series_urls ≠ []) →
        src ≠ [] →
        create_download_job wreg src lib sfn t ufs fr fb = .ok reg2 →
        ∀ x ∈ reg2, x.series_urls ≠ []) :=
  c6_remove_source_invariant wreg "A" "u1" wentry (by decide) (by decide)
    (by decide) (by decide)

/-- Counterexample for **C6** as stated: starting from the empty registry
(which satisfies the invariant), the `create_download_job` upsert with an
empty `source_urls` list, a valid library and a fresh title inserts a
watch entry whose `series_urls` is empty — a registry operation that
violates the never-empty invariant. -/
theorem c6_create_download_job_counterexample :
    (∀ x ∈ ([] : Registry), x.series_urls ≠ []) ∧
    create_download_job [] [] "manga" none (some "A") true "daily" "fb"
      = .ok [(⟨"A", [], "manga", true, "daily"⟩ : WatchEntry)] ∧
    ¬ (∀ x ∈ [(⟨"A", [], "manga", true, "daily"⟩ : WatchEntry)],
          x.series_urls ≠ []) :=
  ⟨by decide, rfl, by decide⟩

/-- **C7.** Adding a URL already present in an entry's `source_urls` leaves
the registry's contents unchanged as a set (idempotent add); adding an
absent URL appends it and re-sorts the list; and bulk-adding a URL whose
scraped title sanitizes to an existing folder name merges the URL into
that entry instead of creating a duplicate entry. -/
theorem c7_add_merge (reg : Registry) (folder url title lib fr : String)
    (e : WatchEntry)
    (hfind : findEntry reg folder = some e) :
    (url ∈ e.series_urls →
        add_source_to_series reg folder url = .ok (reg.erase e ++ [e]) ∧
        (∀ x, x ∈ reg.erase e ++ [e] ↔ x ∈ reg)) ∧
    (url ∉ e.series_urls →
        add_source_to_series reg folder url =
          .ok (reg.erase e ++
            [{ e with series_urls := sortStrings (e.series_urls ++ [url]) }]) ∧
        (∀ u, u ∈ sortStrings (e.series_urls ++ [url]) ↔
            u ∈ e.series_urls ∨ u = url) ∧
        (sortStrings (e.series_urls ++ [url])).Sorted urlLe) ∧
    (findEntry reg (sanitize_filename title) = some e →
        ((bulkAddStep reg url title lib fr).length = reg.length ∧
        (url ∈ e.series_urls → bulkAddStep reg url title lib fr = reg) ∧
        (url ∉ e.series_urls →
          ∃ e' ∈ bulkAddStep reg url title lib fr,
            e'.series_folder_name = e.series_folder_name ∧
            (∀ u, u ∈ e'.series_urls ↔ u ∈ e.series_urls ∨ u = url)))) := by
  have hmem : e ∈ reg := List.mem_of_find?_eq_some hfind
  refine ⟨?_, ?_, ?_⟩
  · intro hin
    constructor
    · unfold add_source_to_series
      rw [hfind]
      dsimp only
      rw [if_pos hin]
    · intro x
      constructor
      · intro hx
        rcases List.mem_append.mp hx with hx | hx
        · exact List.mem_of_mem_erase hx
        · rcases List.mem_singleton.mp hx with rfl
          exact hmem
      · intro hx
        by_cases hxe : x = e
        · subst hxe
          exact List.mem_append_right _ (List.mem_singleton_self _)
        · exact List.mem_append_left _ ((List.mem_erase_of_ne hxe).mpr hx)
  · intro hout
    refine ⟨?_, ?_, sortStrings_sorted _⟩
    · unfold add_source_to_series
      rw [hfind]
      dsimp only
      rw [if_neg hout]
    · intro u
      rw [mem_sortStrings, List.mem_append, List.mem_singleton]
  · intro hfind2
    have hmem2 : e ∈ reg := List.mem_of_find?_eq_some hfind2
    have hpos : 0 < reg.length := List.length_pos.mpr
      (fun hn => by rw [hn] at hmem2; cases hmem2)
    refine ⟨?_, ?_, ?_⟩
    · unfold bulkAddStep
      dsimp only
      rw [hfind2]
      dsimp only
      by_cases hin : url ∈ e.series_urls
      · rw [if_pos hin]
      · rw [if_neg hin]
        rw [List.length_append, List.length_erase_of_mem hmem2]
        simp
        omega
    · intro hin
      unfold bulkAddStep
      dsimp only
      rw [hfind2]
      dsimp only
      rw [if_pos hin]
    · intro hout
      refine ⟨{ e with series_urls := sortStrings (e.series_urls ++ [url]) },
        ?_, rfl, ?_⟩
      · unfold bulkAddStep
        dsimp only
        rw [hfind2]
        dsimp only
        rw [if_neg hout]
        exact List.mem_append_right _ (List.mem_singleton_self _)
      · intro u
        rw [mem_sortStrings, List.mem_append, List.mem_singleton]

/-- Witness for **C7** at `wreg`, adding the already-present URL `"u1"`
(the scraped title `"A"` sanitizes to the existing folder name). -/
theorem c7_add_merge_witness :
    ("u1" ∈ wentry.series_urls →
        add_source_to_series wreg "A" "u1" = .ok (wreg.erase wentry ++ [wentry]) ∧
        (∀ x, x ∈ wreg.erase wentry ++ [wentry] ↔ x ∈ wreg)) ∧
    ("u1" ∉ wentry.series_urls →
        add_source_to_series wreg "A" "u1" =
          .ok (wreg.erase wentry ++
            [{ wentry with
                series_urls := sortStrings (wentry.series_urls ++ ["u1"]) }]) ∧
        (∀ u, u ∈ sortStrings (wentry.series_urls ++ ["u1"]) ↔
            u ∈ wentry.series_urls ∨ u = "u1") ∧
        (sortStrings (wentry.series_urls ++ ["u1"])).Sorted urlLe) ∧
    (findEntry wreg (sanitize_filename "A") = some wentry →
        ((bulkAddStep wreg "u1" "A" "manga" "daily").length = wreg.length ∧
        ("u1" ∈ wentry.series_urls →
            bulkAddStep wreg "u1" "A" "manga" "daily" = wreg) ∧
        ("u1" ∉ wentry.series_urls →
          ∃ e' ∈ bulkAddStep wreg "u1" "A" "manga" "daily",
            e'.series_folder_name = wentry.series_folder_name ∧
            (∀ u, u ∈ e'.series_urls ↔ u ∈ wentry.series_urls ∨ u = "u1")))) :=
  c7_add_merge wreg "A" "u1" "A" "manga" "daily" wentry (by decide)

/-! ### Scheduler helper lemmas -/

/-- Whether a raw registry entry's frequency (default `"daily"`) matches a
pool. -/
def matchesFreq (freq : String) : RegEntryRaw → Bool
  | .parsed e => e.frequency.getD "daily" == freq
  | .malformed => false

/-- A raw entry is well-formed for the scheduler when it parses, its
library key is present and valid, and its URLs and folder name are
truthy. -/
def SchedWellFormed (r : RegEntryRaw) : Prop :=
  ∃ e lib dest, r = RegEntryRaw.parsed e ∧ e.library = some lib ∧
    LIBRARIES lib = some dest ∧ truthyUrls e.series_urls = true ∧
    truthyStr e.series_folder_name = true

theorem submittedCalls_cons (freq : String) (r : RegEntryRaw)
    (rest : List RegEntryRaw) :
    submittedCalls freq (r :: rest) =
      (match schedulerEntryOutcome freq r with
       | .submit c => c :: submittedCalls freq rest
       | _ => submittedCalls freq rest) := by
  unfold submittedCalls
  rw [List.filterMap_cons]
  cases h : schedulerEntryOutcome freq r <;> simp [h]

theorem submittedCalls_length_of_wf (freq : String) :
    ∀ entries : List RegEntryRaw, (∀ r ∈ entries, SchedWellFormed r) →
      (submittedCalls freq entries).length =
        (entries.filter (matchesFreq freq)).length
  | [], _ => rfl
  | r :: rest, hwf => by
    obtain ⟨e, lib, dest, rfl, hl, hd, hu, hf⟩ :=
      hwf r (List.mem_cons_self r rest)
    have ihr := submittedCalls_length_of_wf freq rest
      (fun x hx => hwf x (List.mem_cons_of_mem _ hx))
    by_cases hm : e.frequency.getD "daily" = freq
    · have hstep : schedulerEntryOutcome freq (.parsed e) = .submit
          { series_folder_name := e.series_folder_name.getD "",
            series_urls := e.series_urls.getD [],
            destination_path := dest,
            use_flaresolverr := e.use_flaresolverr.getD true } := by
        simp [schedulerEntryOutcome, hm, hl, hd, hu, hf]
      have hmf : matchesFreq freq (RegEntryRaw.parsed e) = true := by
        simp [matchesFreq, hm]
      rw [submittedCalls_cons, hstep, List.filter_cons]
      simp [hmf, ihr]
    · have hstep : schedulerEntryOutcome freq (.parsed e) = .skipSilent := by
        simp [schedulerEntryOutcome, hm]
      have hmf : matchesFreq freq (RegEntryRaw.parsed e) = false := by
        simp [matchesFreq, hm]
      rw [submittedCalls_cons, hstep, List.filter_cons]
      simp [hmf, ihr]

/-- **C9.** On a scheduler pool tick the last-run timestamp is recorded
before any fan-out work; exactly one discovery invocation is submitted per
well-formed registry entry whose frequency matches the pool (a `"daily"`
tick over two matching and one non-matching entry fans out exactly 2
jobs); and an unparseable entry, or one missing its required `library`
field, is skipped with a logged warning without failing the batch. -/
theorem c9_scheduler_tick (freq : String) (entries es1 es2 : List RegEntryRaw)
    (je : JsonEntry)
    (hwf : ∀ r ∈ entries, SchedWellFormed r)
    (hlib : je.library = none)
    (hfreq : je.frequency.getD "daily" = freq) :
    ((check_for_updates_by_frequency freq entries).head? =
        some (.recordLastRun freq)) ∧
    ((submittedCalls freq entries).length =
        (entries.filter (matchesFreq freq)).length) ∧
    ((submittedCalls "daily"
        [.parsed ⟨some "daily", some "manga", some ["u1"], some "A", none⟩,
         .parsed ⟨some "daily", some "comics", some ["u2"], some "B",
           some false⟩,
         .parsed ⟨some "weekly", some "manga", some ["u3"], some "C",
           none⟩]).length = 2) ∧
    (schedulerEntryOutcome freq .malformed = .skipWarn) ∧
    (schedulerEntryOutcome freq (.parsed je) = .skipWarn) ∧
    (submittedCalls freq (es1 ++ .malformed :: es2)
        = submittedCalls freq (es1 ++ es2)) ∧
    (submittedCalls freq (es1 ++ .parsed je :: es2)
        = submittedCalls freq (es1 ++ es2)) := by
  have hje : schedulerEntryOutcome freq (.parsed je) = .skipWarn := by
    simp [schedulerEntryOutcome, hfreq, hlib]
  refine ⟨rfl, submittedCalls_length_of_wf freq entries hwf, by decide,
    rfl, hje, ?_, ?_⟩
  · simp [submittedCalls, List.filterMap_append, List.filterMap_cons,
      schedulerEntryOutcome]
  · simp [submittedCalls, List.filterMap_append, List.filterMap_cons, hje]

/-- Witness for **C9** at the two-matching-plus-one-non-matching scenario
registry, with a missing-library entry. -/
theorem c9_scheduler_tick_witness :
    ((check_for_updates_by_frequency "daily"
        [.parsed ⟨some "daily", some "manga", some ["u1"], some "A", none⟩,
         .parsed ⟨some "daily", some "comics", some ["u2"], some "B",
           some false⟩,
         .parsed ⟨some "weekly", some "manga", some ["u3"], some "C",
           none⟩]).head? = some (.recordLastRun "daily")) ∧
    ((submittedCalls "daily"
        [.parsed ⟨some "daily", some "manga", some ["u1"], some "A", none⟩,
         .parsed ⟨some "daily", some "comics", some ["u2"], some "B",
           some false⟩,
         .parsed ⟨some "weekly", some "manga", some ["u3"], some "C",
           none⟩]).length =
      ([.parsed ⟨some "daily", some "manga", some ["u1"], some "A", none⟩,
        .parsed ⟨some "daily", some "comics", some ["u2"], some "B",
          some false⟩,
        .parsed ⟨some "weekly", some "manga", some ["u3"], some "C",
          none⟩].filter (matchesFreq "daily")).length) ∧
    ((submittedCalls "daily"
        [.parsed ⟨some "daily", some "manga", some ["u1"], some "A", none⟩,
         .parsed ⟨some "daily", some "comics", some ["u2"], some "B",
           some false⟩,
         .parsed ⟨some "weekly", some "manga", some ["u3"], some "C",
           none⟩]).length = 2) ∧
    (schedulerEntryOutcome "daily" .malformed = .skipWarn) ∧
    (schedulerEntryOutcome "daily"
        (.parsed ⟨some "daily", none, some ["u4"], some "D", none⟩)
      = .skipWarn) ∧
    (submittedCalls "daily" ([] ++ .malformed :: [])
        = submittedCalls "daily" ([] ++ [])) ∧
    (submittedCalls "daily"
        ([] ++ .parsed ⟨some "daily", none, some ["u4"], some "D", none⟩ :: [])
        = submittedCalls "daily" ([] ++ [])) :=
  c9_scheduler_tick "daily"
    [.parsed ⟨some "daily", some "manga", some ["u1"], some "A", none⟩,
     .parsed ⟨some "daily", some "comics", some ["u2"], some "B", some false⟩,
     .parsed ⟨some "weekly", some "manga", some ["u3"], some "C", none⟩]
    [] [] ⟨some "daily", none, some ["u4"], some "D", none⟩
    (by
      intro r hr
      rcases List.mem_cons.mp hr with rfl | hr
      · exact ⟨_, "manga", "/downloads/manga", rfl, rfl, by decide, rfl, rfl⟩
      rcases List.mem_cons.mp hr with rfl | hr
      · exact ⟨_, "comics", "/downloads/comics", rfl, rfl, by decide, rfl, rfl⟩
      rcases List.mem_cons.mp hr with rfl | hr
      · exact ⟨_, "manga", "/downloads/manga", rfl, rfl, by decide, rfl, rfl⟩
      · cases hr)
    rfl rfl

end HadesMangaDL
